import Mathlib

/-!
Shallow embedding of the Enrich2/CountESS selection pipeline
(`src/enrich2/selection/selection.py`) together with the external
interfaces it consumes, and proofs of the specification claims about it.

Conventions of the embedding:

- Tables are association lists from a row label (the element identifier,
  a string index in pandas) to the row cells.  A missing value (NaN in
  pandas) is `none`; present numeric values are integers, since every
  count in the pipeline is integer valued (the source stores them as
  floats only so that NaN can represent missingness).
- The key-addressed HDF5 store is a function from key strings to an
  optional table value; `put` overwrites one key, `remove` deletes it,
  `append` concatenates rows (creating the key when absent), exactly the
  operations used by the source.
- Fallible code (KeyError, ValueError, TypeError, AttributeError raised
  by the source) is embedded in `Except String`.  The error happens in
  every embedded operation before any store write, matching the source,
  so an `Except.error` result means the store was not modified.
- pandas index alignment (`DataFrame.add`, `join`, `Index.union`)
  produces rows in a library-version-dependent order (sorted by recent
  pandas); the embedding keeps first-seen order.  Every claim proved
  here is insensitive to row order, and states membership and lookup
  facts only.
-/

namespace S2P

/-- A table cell: `none` is a missing value (NaN), `some n` a count. -/
abbrev Cell := Option ℤ

/-- A single-column table (a per-library count table: element identifier
to count), as produced by each sequencing library for one label. -/
abbrev ColTable := List (String × Cell)

/-- A multi-column counts table: element identifier to one cell per
timepoint, in the order of `Selection.timepoints` (column `c_t` of the
source is the position of `t` in that list). -/
abbrev DF := List (String × List Cell)

/-- A scores table row: the `score` and `SE` columns (other columns of a
scores table are never read by the code under verification). -/
abbrev ScoreRow := Cell × Cell

/-- The values a store key can hold.  Each constructor corresponds to one
family of tables the pipeline reads or writes. -/
inductive TableVal where
  /-- a merged counts table (one column per timepoint) -/
  | counts (rows : DF)
  /-- a per-library single-column count table -/
  | col (rows : ColTable)
  /-- a barcode map: barcode to target element identifier (`value`) -/
  | bcmap (rows : List (String × Option String))
  /-- a scores table (only `score` and `SE` are relevant) -/
  | scores (rows : List (String × ScoreRow))
  /-- an outliers table: `z`, `pvalue_raw`, `parent` -/
  | outliers (rows : List (String × Cell × Cell × Option String))
deriving DecidableEq

/-- The key-addressed table store (one HDF5 file in the source). -/
def Store : Type := String → Option TableVal

/-- Write-replace one key (`store.put`). -/
def Store.put (s : Store) (k : String) (t : TableVal) : Store :=
  fun q => if q = k then some t else s q

/-- Delete one key (`store.remove`). -/
def Store.remove (s : Store) (k : String) : Store :=
  fun q => if q = k then none else s q

/-- Row-append to a counts table key (`store.append`); creates the key
when it is absent, as the source relies on. -/
def Store.appendCounts (s : Store) (k : String) (rows : DF) : Store :=
  match s k with
  | some (.counts t) => s.put k (.counts (t ++ rows))
  | _ => s.put k (.counts rows)

/-- Key membership (`key in store`). -/
def Store.hasKey (s : Store) (k : String) : Bool :=
  (s k).isSome

/-- One sequencing library (a Source in the spec): external collaborator
of the Selection.  Its own store holds its raw per-label count tables
and barcode map; the classification and wild-type facts are the
interface queries the Selection performs on it. -/
structure SeqLib where
  name : String
  timepoint : ℤ
  store : Store
  /-- result of the external `lib.has_wt_sequence()` -/
  hasWtSeq : Bool
  /-- whether the library is a `BcvSeqLib` (barcode-variant) -/
  isBcv : Bool
  /-- whether the library is a `BcidSeqLib` (barcode-identifier) -/
  isBcid : Bool
  /-- result of the external `lib.is_coding()` -/
  coding : Bool
  /-- result of the external `lib.validate()` (ok or raising) -/
  validateOk : Bool

/-- Insertion into a sorted list; helper for the stable sorts below. -/
def insertSorted (le : α → α → Bool) (x : α) : List α → List α
  | [] => [x]
  | y :: ys => if le x y then x :: y :: ys else y :: insertSorted le x ys

/-- Stable structural sort (Python `sorted` is a stable sort; the exact
algorithm is irrelevant to every claim). -/
def sortBy (le : α → α → Bool) : List α → List α
  | [] => []
  | x :: xs => insertSorted le x (sortBy le xs)

/-- Lexicographic comparison of character lists by code point, the
order Python string comparison uses. -/
def charListLe : List Char → List Char → Bool
  | [], _ => true
  | _ :: _, [] => false
  | a :: as, b :: bs =>
      if a.toNat < b.toNat then true
      else if b.toNat < a.toNat then false
      else charListLe as bs

/-- String comparison by code points (Python string order). -/
def strLe (a b : String) : Bool :=
  charListLe a.data b.data

/-- The Selection: owner of the grouped libraries and of the store all
derived tables are written to.  Configuration fields
(`scoring_method`, `logr_method`, `force_recalculate`,
`component_outliers`, `chunksize`) and the `labels` and `store`
properties live on the `StoreManager` base class, which is outside the
provided sources; they are modelled as plain fields here. -/
structure Selection where
  /-- the `libraries` dict: timepoint to the list of libraries at that
  timepoint (keys unique, lists non-empty in any reachable state) -/
  libraries : List (ℤ × List SeqLib)
  /-- number of distinct parsed barcode map files
  (`len(self.barcode_maps)`) -/
  barcodeMapsCount : ℕ
  store : Store
  scoringMethod : String
  logrMethod : String
  forceRecalculate : Bool
  componentOutliers : Bool
  labels : List String
  chunksize : ℕ

/-- Sorted timepoints (`sorted(self.libraries.keys())`). -/
def Selection.timepoints (sel : Selection) : List ℤ :=
  sortBy (fun a b => a ≤ b) (sel.libraries.map Prod.fst)

/-- The libraries at one timepoint (`self.libraries[tp]`). -/
def Selection.libsAt (sel : Selection) (tp : ℤ) : List SeqLib :=
  match sel.libraries.find? (fun p => p.1 = tp) with
  | some p => p.2
  | none => []

/-- The `children` property via `_children`: libraries sorted by
timepoint and then by name. -/
def Selection.children (sel : Selection) : List SeqLib :=
  (sel.timepoints.map
    (fun tp => sortBy (fun a b => strLe a.name b.name) (sel.libsAt tp))).flatten

/-- All libraries in timepoint order
(`[lib for tp in self.timepoints for lib in self.libraries[tp]]`). -/
def Selection.allLibs (sel : Selection) : List SeqLib :=
  (sel.timepoints.map sel.libsAt).flatten

/-- `Selection.is_barcodevariant`: every child a `BcvSeqLib` and exactly
one barcode map. -/
def Selection.isBarcodeVariant (sel : Selection) : Bool :=
  sel.children.all (fun l => l.isBcv) && sel.barcodeMapsCount == 1

/-- `Selection.is_barcodeid`: every child a `BcidSeqLib` and exactly one
barcode map. -/
def Selection.isBarcodeId (sel : Selection) : Bool :=
  sel.children.all (fun l => l.isBcid) && sel.barcodeMapsCount == 1

/-- `Selection.is_coding`: every child counts protein-coding variants. -/
def Selection.isCoding (sel : Selection) : Bool :=
  sel.children.all (fun l => l.coding)

/-- `Selection.has_wt_sequence`: every child has a wild-type sequence. -/
def Selection.hasWtSequence (sel : Selection) : Bool :=
  sel.children.all (fun l => l.hasWtSeq)

/-- Modelled from the spec: `StoreManager.check_store` is outside the
provided sources.  Per the spec, a stage returns immediately when its
destination key already exists and no force-recompute is requested
(with force-recompute, recomputation proceeds and the stage first
deletes the stale key). -/
def Selection.checkStore (sel : Selection) (key : String) : Bool :=
  !sel.forceRecalculate && sel.store.hasKey key

/-- Modelled from the spec / source constants: `WILD_TYPE_VARIANT` from
`enrich2.base.constants` (not under the provided sources), the
synthetic identifier of the wild-type row. -/
def WILD_TYPE_VARIANT : String := "_wt"

/-- Key of the unfiltered counts table for a label. -/
def unfilteredKey (label : String) : String :=
  "/main/" ++ label ++ "/counts_unfiltered"

/-- Key of the filtered counts table for a label (also the key of the
per-library raw count table inside each library store). -/
def countsKey (label : String) : String :=
  "/main/" ++ label ++ "/counts"

/-- Key of the scores table for a label. -/
def scoresKey (label : String) : String :=
  "/main/" ++ label ++ "/scores"

/-- Key of the outliers table for a label. -/
def outliersKey (label : String) : String :=
  "/main/" ++ label ++ "/outliers"

/-- The single-column table a library store holds at a key, when it
holds one. -/
def libColTable (lib : SeqLib) (key : String) : Option ColTable :=
  match lib.store key with
  | some (.col t) => some t
  | _ => none

/-- `filter_counts(label)` (source lines 365-394): read the unfiltered
counts table, drop every row containing a missing value in any
timepoint column (`dropna(axis="index", how="any")`), cast to float
(the identity on our integer-valued cells), and write-replace the
result at the filtered key.  The source has no destination-exists
check: both branches of its `valid_type` test select the same
unfiltered table (the re-aggregation branch is a TODO in the source),
and the write is unconditional. -/
def filterCounts (sel : Selection) (label : String) : Except String Store :=
  let validType := sel.isBarcodeId || sel.isBarcodeVariant
  let selected :=
    if validType && label ≠ "barcodes" then
      sel.store (unfilteredKey label)
    else
      sel.store (unfilteredKey label)
  match selected with
  | some (.counts df) =>
      let kept := df.filter (fun r => r.2.all (fun c => c.isSome))
      .ok (sel.store.put (countsKey label) (.counts kept))
  | _ => .error "KeyError: No object named counts_unfiltered in the file"

/-- The index (row labels) of a single-column table. -/
def colIndex (t : ColTable) : List String :=
  t.map Prod.fst

/-- The index of a multi-column counts table. -/
def dfIndex (t : DF) : List String :=
  t.map Prod.fst

/-- pandas `Index.union` at the membership level: the first index
followed by the members of the second not already present (pandas in
addition sorts lexicographically; no claim depends on the order). -/
def indexUnion (a b : List String) : List String :=
  a ++ b.filter (fun e => !a.contains e)

/-- The `complete_index` of `merge_counts_unfiltered`: the union of the
element identifiers of the per-library raw count tables across all
timepoints and libraries; errors when a library lacks the table, as
`select_column` does. -/
def completeIndex (sel : Selection) (key : String) :
    Except String (List String) :=
  sel.timepoints.foldlM (fun acc tp =>
    (sel.libsAt tp).foldlM (fun acc2 lib =>
      match libColTable lib key with
      | some t => .ok (indexUnion acc2 (colIndex t))
      | none => .error "KeyError: no such table in library store") acc) []

/-- The value a single-column table carries at an element: `none` both
when the row is absent and when its cell is missing, which is exactly
how pandas alignment treats the two cases in `add` and `join`. -/
def cellOf (t : ColTable) (e : String) : Cell :=
  ((t.find? (fun r => r.1 = e)).map Prod.snd).join

/-- The single-column table of a library at a key, defaulting to empty
(only evaluated after the caller has established existence). -/
def libTableD (lib : SeqLib) (key : String) : ColTable :=
  (libColTable lib key).getD []

/-- The index of the raw count table of a library for a key. -/
def libIndexD (lib : SeqLib) (key : String) : List String :=
  colIndex (libTableD lib key)

/-- The row-subset selection `select(lib_table, "index = index_chunk")`. -/
def selectCol (t : ColTable) (chunk : List String) : ColTable :=
  t.filter (fun r => chunk.contains r.1)

/-- Cell addition under `fill_value=0`: a value missing on one side
counts as zero, and only two missing values stay missing. -/
def addCell : Cell → Cell → Cell
  | none, none => none
  | a, b => some (a.getD 0 + b.getD 0)

/-- pandas `c.add(c2, fill_value=0)`: align on the union of the two
indices and add cells with missing-as-zero fill. -/
def colAdd (a b : ColTable) : ColTable :=
  a.map (fun r => (r.1, addCell r.2 (cellOf b r.1))) ++
  (b.filter (fun r => !(colIndex a).contains r.1)).map
    (fun r => (r.1, addCell none r.2))

/-- The summed column of one timepoint over one index chunk: the first
library restricted to the chunk, then `add` with zero fill of every
further library at that timepoint.  The `libraries` dict never maps a
timepoint to an empty list, so the empty case is unreachable; the
`getD` totalization is likewise unreachable because the caller has
already built `completeIndex` from the same tables. -/
def tpCol (libs : List SeqLib) (key : String) (chunk : List String) :
    ColTable :=
  match libs with
  | [] => []
  | l0 :: rest =>
      rest.foldl
        (fun c lib => colAdd c (selectCol (libTableD lib key) chunk))
        (selectCol (libTableD l0 key) chunk)

/-- pandas `tp_frame.join(c, how="outer")` of a w-column frame with one
more single-column frame: rows of the left get the cell of the right
appended (missing when absent), right-only rows get w missing cells
before their own. -/
def dfJoin (a : DF) (w : ℕ) (b : ColTable) : DF :=
  a.map (fun r => (r.1, r.2 ++ [cellOf b r.1])) ++
  (b.filter (fun r => !(dfIndex a).contains r.1)).map
    (fun r => (r.1, List.replicate w none ++ [r.2]))

/-- One chunk frame: join the timepoint columns in timepoint order.  The
source writes `if tp == 0: tp_frame = c else: tp_frame.join(c)`;
`timepoints` is sorted and a validated selection starts at 0, so the
first iteration is the `tp == 0` case. -/
def chunkFrame (sel : Selection) (key : String) (chunk : List String) : DF :=
  match sel.timepoints with
  | [] => []
  | t0 :: rest =>
      (rest.foldl
        (fun acc tp =>
          (dfJoin acc.1 acc.2 (tpCol (sel.libsAt tp) key chunk), acc.2 + 1))
        ((tpCol (sel.libsAt t0) key chunk).map (fun r => (r.1, [r.2])), 1)).1

/-- Structural worker for chunk partitioning; `fuel` bounds recursion
depth so that the kernel can evaluate it (the caller passes the list
length, which suffices for any positive chunk size). -/
def chunkGo (fuel n : ℕ) (l : List α) : List (List α) :=
  match fuel, l with
  | _, [] => []
  | 0, l => [l]
  | f + 1, l => l.take n :: chunkGo f n (l.drop n)

/-- The chunk partition of `range(0, len(complete_index), chunksize)`:
contiguous chunks of size `n` (the last one possibly shorter).  The
source reuses the whole index when the chunk size is at least its
length, which yields the same single chunk. -/
def chunkList (n : ℕ) (l : List α) : List (List α) :=
  chunkGo l.length n l

/-- `merge_counts_unfiltered(label)` (source lines 275-363): skip when
the destination exists (no force-recompute); otherwise have every
library compute its raw counts (external, memoized, touches only the
library stores), delete a stale destination, build the shared index,
and append one merged chunk frame per index chunk.  A zero chunk size
makes `range` raise, mirrored by the guard; a missing library table
raises KeyError while building the shared index, before any write to
the destination (except that under force-recompute the stale
destination was already deleted, as in the source). -/
def mergeCountsUnfiltered (sel : Selection) (label : String) :
    Except String Store :=
  if sel.checkStore (unfilteredKey label) then .ok sel.store
  else
    let s0 := if sel.store.hasKey (unfilteredKey label) then
        sel.store.remove (unfilteredKey label)
      else sel.store
    match completeIndex sel (countsKey label) with
    | .error e => .error e
    | .ok cidx =>
        -- min_itemsize, the longest identifier in the shared index,
        -- sizes on-disk string storage only and has no effect on the
        -- table contents
        if sel.chunksize = 0 then
          .error "ValueError: range arg 3 must not be zero"
        else
          .ok ((chunkList sel.chunksize cidx).foldl
            (fun s chunk =>
              s.appendCounts (unfilteredKey label)
                (chunkFrame sel (countsKey label) chunk)) s0)

/-- The `value` column of a barcode map at a barcode: `none` both for an
absent row and for a null target, as pandas alignment treats them. -/
def bcVal (m : List (String × Option String)) (b : String) : Option String :=
  ((m.find? (fun r => r.1 = b)).map Prod.snd).join

/-- One step of the sequential outer join of `combine_barcode_maps`:
join with `rsuffix=".drop"`, then fill the rows whose accumulated
`value` is null from the newly joined column and drop it.  A row of the
left keeps its target when non-null; right-only rows (null after the
join) receive the right target. -/
def bcmMerge (a b : List (String × Option String)) :
    List (String × Option String) :=
  a.map (fun r => (r.1, r.2.or (bcVal b r.1))) ++
  (b.filter (fun r => !(a.map Prod.fst).contains r.1)).map
    (fun r => (r.1, r.2))

/-- The raw barcode map of a library (`lib.store["/raw/barcodemap"]`). -/
def getBcMap (lib : SeqLib) :
    Except String (List (String × Option String)) :=
  match lib.store "/raw/barcodemap" with
  | some (.bcmap m) => .ok m
  | _ => .error "KeyError: no raw barcodemap in library store"

/-- The order `sort_values("value")` sorts by: target identifiers
ascending, null targets last (pandas default na_position). -/
def valueLe : Option String → Option String → Bool
  | some x, some y => strLe x y
  | some _, none => true
  | none, some _ => false
  | none, none => true

/-- `combine_barcode_maps()` (source lines 396-415): skip when the
destination exists; otherwise fold the sequential outer join over the
children in order, sort the result by target, and write it once.  With
no children the accumulator stays `None` and `sort_values` raises. -/
def combineBarcodeMaps (sel : Selection) : Except String Store :=
  if sel.checkStore "/main/barcodemap" then .ok sel.store
  else
    match sel.children with
    | [] => .error "AttributeError: NoneType has no attribute sort_values"
    | l0 :: rest => do
        let m0 ← getBcMap l0
        let m ← rest.foldlM (fun acc lib => do
            let mb ← getBcMap lib
            pure (bcmMerge acc mb)) m0
        let msorted := sortBy (fun r s : String × Option String => valueLe r.2 s.2) m
        .ok (sel.store.put "/main/barcodemap" (.bcmap msorted))

/-- The index column of a count table held in a library store
(`lib.store.select_column(table_key, "index")`). -/
def selectIndexCol (lib : SeqLib) (key : String) :
    Except String (List String) :=
  match lib.store key with
  | some (.col t) => .ok (colIndex t)
  | _ => .error "KeyError: no such table in library store"

/-- pandas `Index.intersection`: the distinct members of the left that
the right also contains. -/
def interIdx (a b : List String) : List String :=
  a.dedup.filter (fun e => b.contains e)

/-- `timepoint_indices_intersect_for_label(label)` (source lines
430-451): re-derive the per-(timepoint, library) index set of the
per-library count tables, reduce by pairwise intersection, and require
the intersection cardinality to equal each individual distinct
cardinality.  `reduce` over an empty sequence raises. -/
def timepointIndicesIntersectForLabel (sel : Selection) (label : String) :
    Except String Unit := do
  let idxLs ← sel.allLibs.mapM (fun lib => selectIndexCol lib (countsKey label))
  let idxLenLs := idxLs.map (fun idx => idx.dedup.length)
  match idxLs with
  | [] => .error "TypeError: reduce of empty iterable with no initial value"
  | i0 :: rest =>
      let common := rest.foldl interIdx i0
      if idxLenLs.all (fun n => common.length == n) then .ok ()
      else .error ("Timepoints contain different variants for label " ++ label)

/-- `timepoint_indices_intersect()`: the per-label check over all
labels.  Present in the source but not invoked by `calculate` (the
call there is commented out). -/
def timepointIndicesIntersect (sel : Selection) : Except String Unit :=
  sel.labels.forM (timepointIndicesIntersectForLabel sel)

/-- `timepoints_contain_variants_for_label(label)`: no per-library index
may consist solely of the wild-type placeholder row. -/
def timepointsContainVariantsForLabel (sel : Selection) (label : String) :
    Except String Unit := do
  let idxLs ← sel.allLibs.mapM (fun lib => selectIndexCol lib (countsKey label))
  if idxLs.all (fun idx =>
      !(!idx.isEmpty && idx.all (fun e => e == WILD_TYPE_VARIANT))) then
    .ok ()
  else .error ("Some timepoints do not contain any variants for label " ++ label)

/-- `timepoints_contain_variants()`: the check over all labels. -/
def timepointsContainVariants (sel : Selection) : Except String Unit :=
  sel.labels.forM (timepointsContainVariantsForLabel sel)

/-- Whether a stored table has no rows (`DataFrame.empty`). -/
def TableVal.isEmptyTable : TableVal → Bool
  | .counts r => r.isEmpty
  | .col r => r.isEmpty
  | .bcmap r => r.isEmpty
  | .scores r => r.isEmpty
  | .outliers r => r.isEmpty

/-- `table_exists_for_key`, which delegates to `check_store`. -/
def tableExistsForKey (sel : Selection) (key : String) : Bool :=
  sel.checkStore key

/-- `table_not_empty_for_key`: raises when the table does not exist,
else reports whether it has rows. -/
def tableNotEmptyForKey (sel : Selection) (key : String) :
    Except String Bool :=
  if !tableExistsForKey sel key then
    .error "Required table does not exist"
  else
    match sel.store key with
    | some t => .ok (!t.isEmptyTable)
    | none => .error "Required table does not exist"

/-- `ensure_main_count_tables_exist_and_populated`. -/
def ensureMainCountTables (sel : Selection) : Except String Unit :=
  sel.labels.forM (fun label => do
    if !tableExistsForKey sel (countsKey label) then
      .error "Required table does not exist"
    else do
      let ne ← tableNotEmptyForKey sel (countsKey label)
      if !ne then .error "Required table is empty" else pure ())

/-- `Selection.validate` (source lines 179-218): timepoint rules, the
wild-type sequence warning (a log message with no effect on control
flow), the wild-type normalization precondition, then child
validation.  The function performs no store access at all. -/
def Selection.validate (sel : Selection) : Except String Unit :=
  if !(sel.timepoints.contains 0) then
    .error "Missing timepoint 0"
  else if sel.timepoints.head? ≠ some 0 then
    .error "Invalid negative timepoint"
  else if sel.timepoints.length < 2 then
    .error "Multiple timepoints required"
  else if sel.timepoints.length < 3 &&
      (sel.scoringMethod == "WLS" || sel.scoringMethod == "OLS") then
    .error "Insufficient number of timepoints for regression scoring"
  else if !sel.hasWtSequence && sel.logrMethod == "wt" then
    .error "No wild type sequence for wild type normalization"
  else
    sel.children.forM (fun c =>
      if c.validateOk then pure () else .error "child validation failed")

/-- Modelled from the spec: the scoring plugins (`SimpleScorer`,
`RatiosScorer`, `RegressionScorer` under `enrich2.plugins`) are not in
the provided sources.  Per spec section 4.5 a scorer consumes the
filtered counts tables and writes one scores table per label, memoized
on the scores key of the label; the numeric strategy itself decides no
claim below and is supplied as the `scoreTable` argument. -/
def computeScores (scoreTable : String → List (String × ScoreRow))
    (sel : Selection) : Store :=
  sel.labels.foldl (fun s label =>
    if !sel.forceRecalculate && s.hasKey (scoresKey label) then s
    else s.put (scoresKey label) (.scores (scoreTable label))) sel.store

/-- Append a variant to the component list of its protein variant. -/
def addToMapping (m : List (String × List String)) (k v : String) :
    List (String × List String) :=
  match m.find? (fun p => p.1 = k) with
  | some _ => m.map (fun p => if p.1 = k then (p.1, p.2 ++ [v]) else p)
  | none => m ++ [(k, [v])]

/-- `synonymous_variants()`: group the variant identifiers of
`/main/variants/counts` by their protein variant.  The translation
`protein_variant` lives in `enrich2.libraries.variant`, outside the
provided sources, and is supplied as the argument `pv`. -/
def synonymousVariants (pv : String → String) (sel : Selection) :
    Except String (List (String × List String)) :=
  match sel.store (countsKey "variants") with
  | some (.counts df) =>
      .ok (df.foldl (fun m r => addToMapping m (pv r.1) r.1) [])
  | _ => .error "KeyError: No variant counts found"

/-- Collect a barcode into the set of its target. -/
def addToBcMapping (m : List (Option String × List String))
    (k : Option String) (bc : String) : List (Option String × List String) :=
  match m.find? (fun p => p.1 = k) with
  | some _ => m.map (fun p => if p.1 = k then (p.1, p.2 ++ [bc]) else p)
  | none => m ++ [(k, [bc])]

/-- `barcodemap_mapping()`: invert the merged barcode map, target to the
collection of its barcodes. -/
def barcodemapMapping (sel : Selection) :
    Except String (List (Option String × List String)) :=
  match sel.store "/main/barcodemap" with
  | some (.bcmap m) =>
      .ok (m.foldl (fun acc r => addToBcMapping acc r.2 r.1) [])
  | _ => .error "KeyError: no barcodemap in store"

/-- The `score` and `SE` columns of a scores table
(`select(key, "columns=[score, SE]")`). -/
def selectScores (sel : Selection) (key : String) :
    Except String (List (String × ScoreRow)) :=
  match sel.store key with
  | some (.scores t) => .ok t
  | _ => .error "KeyError: no scores table in store"

/-- The parent label resolution at the head of `calc_outliers`:
variants parent to synonymous, barcodes to variants or identifiers by
classification; anything else is rejected. -/
def outlierParentLabel (sel : Selection) (label : String) :
    Except String String :=
  if label == "variants" then .ok "synonymous"
  else if label == "barcodes" then
    (if sel.isBarcodeVariant then .ok "variants"
     else if sel.isBarcodeId then .ok "identifiers"
     else .error
       "AttributeError: Failed to identify parent label when calculating barcode outliers")
  else .error "KeyError: Invalid label for calc_outliers"

/-- `calc_outliers(label, minimum_components, log_chunksize)` (source
lines 1419-1528): skip when the destination exists; resolve the parent
label; build the parent-to-components mapping; select the two scores
tables; precompute variances and an all-missing result frame (pure
frame arithmetic with no store effect); then compute the chunk sizes
for progress logging as
list-of-log_chunksize times (len(df2) / log_chunksize).
Under Python 3 that quotient is a float even when it divides evenly,
and multiplying a list by a float raises TypeError unconditionally, so
the per-parent z-test loop and the final write of the outliers table
are never executed and the store is never modified. -/
def calcOutliers (pv : String → String) (sel : Selection) (label : String)
    (minimumComponents logChunksize : ℕ) : Except String Store :=
  if sel.checkStore (outliersKey label) then .ok sel.store
  else do
    let label2 ← outlierParentLabel sel label
    let _ ←
      (if label == "variants" then (synonymousVariants pv sel).map (fun _ => ())
       else if label == "barcodes" then (barcodemapMapping sel).map (fun _ => ())
       else .error "KeyError: Invalid label for calc_outliers")
    let _df1 ← selectScores sel (scoresKey label)
    let _df2 ← selectScores sel (scoresKey label2)
    let _ := minimumComponents
    let _ := logChunksize
    .error "TypeError: cannot multiply sequence by non-int of type float"

/-- `Selection.calculate` (source lines 535-606): merge and filter every
label, combine the barcode maps for barcode designs, check the main
count tables and the placeholder-only condition (the index
intersection check of the source is commented out and not invoked),
dispatch on the scoring method, and run the outlier detection for the
methods that allow it.  `scoreTable` and `pv` stand for the external
scorer plugins and protein translation as above. -/
def calculate (scoreTable : String → List (String × ScoreRow))
    (pv : String → String) (sel : Selection) : Except String Store := do
  if sel.labels.isEmpty then
    .error "No data present across all sequencing libraries"
  else do
    let s1 ← sel.labels.foldlM (fun s label => do
        let s2 ← mergeCountsUnfiltered { sel with store := s } label
        filterCounts { sel with store := s2 } label) sel.store
    let sel1 := { sel with store := s1 }
    let s2 ← if sel1.isBarcodeVariant || sel1.isBarcodeId then
        combineBarcodeMaps sel1
      else .ok s1
    let sel2 := { sel with store := s2 }
    let _ ← ensureMainCountTables sel2
    let _ ← timepointsContainVariants sel2
    let s3 ←
      if sel.scoringMethod == "counts" then .ok sel2.store
      else if sel.scoringMethod == "ratios" then
        .ok (computeScores scoreTable sel2)
      else if sel.scoringMethod == "simple" then
        .ok (computeScores scoreTable sel2)
      else if sel.scoringMethod == "OLS" then
        if sel.timepoints.length ≤ 2 then
          .error "Regression-based scoring requires three or more time points"
        else .ok (computeScores scoreTable sel2)
      else if sel.scoringMethod == "WLS" then
        if sel.timepoints.length ≤ 2 then
          .error "Regression-based scoring requires three or more time points"
        else .ok (computeScores scoreTable sel2)
      else .error "Invalid scoring method"
    let sel3 := { sel with store := s3 }
    if (sel.scoringMethod == "ratios" || sel.scoringMethod == "WLS" ||
        sel.scoringMethod == "OLS") && sel.componentOutliers then do
      let s4 ← if sel3.isBarcodeVariant || sel3.isBarcodeId then
          calcOutliers pv sel3 "barcodes" 4 20000
        else .ok s3
      let sel4 := { sel with store := s4 }
      if sel4.isCoding then calcOutliers pv sel4 "variants" 4 20000
      else .ok s4
    else .ok s3

/-- The command-line driver order of `main.py`: `validate` runs before
the stores are even opened, so a validation error leaves every store
untouched; only then is `calculate` invoked. -/
def pipelineDriver (scoreTable : String → List (String × ScoreRow))
    (pv : String → String) (sel : Selection) : Except String Store :=
  match sel.validate with
  | .error e => .error e
  | .ok _ => calculate scoreTable pv sel

/-- The resulting store of a pipeline step, or the given store when the
step raised (the embedded operations raise before writing, so the
default is exactly the untouched store). -/
def runStore (r : Except String Store) (d : Store) : Store :=
  match r with
  | .ok s => s
  | .error _ => d

/-- The shared index of `merge_counts_unfiltered` as a pure value: the
fold of `Index.union` over all timepoints and their libraries. -/
def completeIndexPure (sel : Selection) (key : String) : List String :=
  sel.timepoints.foldl (fun acc tp =>
    (sel.libsAt tp).foldl (fun acc2 lib =>
      indexUnion acc2 (libIndexD lib key)) acc) []

/-- Claim-side description (following the words of the specification) of
one cell of the merged unfiltered table: the sum over all Sources at
the timepoint of the count of the element, a Source lacking a row
contributing zero, and a missing value when no Source at the timepoint
has a row for the element. -/
def specTimepointCell (sel : Selection) (key : String) (tp : ℤ)
    (e : String) : Cell :=
  if (sel.libsAt tp).any (fun lib => (libIndexD lib key).contains e) then
    some (((sel.libsAt tp).map
      (fun lib => (cellOf (libTableD lib key) e).getD 0)).sum)
  else none

/-- The barcode map of a library, defaulting to empty. -/
def bcMapD (lib : SeqLib) : List (String × Option String) :=
  match lib.store "/raw/barcodemap" with
  | some (.bcmap m) => m
  | _ => []

/-- Claim-side description (following the words of the specification) of
the merged barcode map entry of a barcode: the first non-null target
over the children in child order. -/
def firstTarget : List SeqLib → String → Option String
  | [], _ => none
  | l :: ls, b => (bcVal (bcMapD l) b).or (firstTarget ls b)

/-- The last seven characters of a string, reversed; two strings with
different values of this function are distinct, which separates the
key families of the store layout. -/
def tail7 (s : String) : List Char :=
  s.data.reverse.take 7

/-- A single-column table is label determined when every row carries the
value that a lookup of its label returns; tables with a duplicate-free
index have this property, and the alignment operations preserve it. -/
def labelDet (t : ColTable) : Prop :=
  ∀ r ∈ t, r.2 = cellOf t r.1

/-- A barcode map is label determined in the same sense. -/
def bcDet (m : List (String × Option String)) : Prop :=
  ∀ r ∈ m, r.2 = bcVal m r.1

/-- Whether the raw barcode map of a library is present in its store. -/
def hasBcMap (lib : SeqLib) : Bool :=
  match lib.store "/raw/barcodemap" with
  | some (.bcmap _) => true
  | _ => false

/-! Concrete instances, used to evaluate the embedded pipeline on small
inputs. -/

/-- A finite store given by an association list. -/
def storeOf (entries : List (String × TableVal)) : Store :=
  fun k => (entries.find? (fun e => e.1 = k)).map Prod.snd

/-- A library with the given name, timepoint, store and interface
flags (wild-type sequence, barcode-variant, barcode-identifier,
coding); child validation succeeds. -/
def mkLib (name : String) (tp : ℤ) (st : Store) (wt bcv bcid cod : Bool) :
    SeqLib :=
  { name := name, timepoint := tp, store := st, hasWtSeq := wt,
    isBcv := bcv, isBcid := bcid, coding := cod, validateOk := true }

/-- A selection with the given libraries, barcode map count, store,
scoring and log-ratio methods, labels and chunk size; no
force-recompute, no component outliers. -/
def mkSel (libraries : List (ℤ × List SeqLib)) (bmc : ℕ) (st : Store)
    (sm lm : String) (labels : List String) (cs : ℕ) : Selection :=
  { libraries := libraries, barcodeMapsCount := bmc, store := st,
    scoringMethod := sm, logrMethod := lm, forceRecalculate := false,
    componentOutliers := false, labels := labels, chunksize := cs }

/-- A trivial stand-in for the external scorer strategy. -/
def cScoreF : String → List (String × ScoreRow) :=
  fun _ => [("A", (some 1, some 1))]

/-- A trivial stand-in for the external protein translation. -/
def cPv : String → String :=
  fun s => s

/-- Selection with one unfiltered counts table of two rows, one of them
missing a timepoint value. -/
def cSelF : Selection :=
  mkSel [] 0
    (storeOf [(unfilteredKey "x",
      .counts [("A", [some 1, some 2]), ("B", [some 1, none])])])
    "counts" "complete" ["x"] 5

/-- The unfiltered table of `cSelF`. -/
def cDfF : DF :=
  [("A", [some 1, some 2]), ("B", [some 1, none])]

/-- Selection whose filtered-counts destination already exists with
contents that differ from what re-filtering the unfiltered table
produces. -/
def cSel4 : Selection :=
  mkSel [] 0
    (storeOf [(unfilteredKey "x", .counts [("b", [some 2])]),
              (countsKey "x", .counts [("a", [some 1])])])
    "counts" "complete" ["x"] 5

/-- Selection in which every pipeline destination key already exists. -/
def cSel1 : Selection :=
  mkSel [(0, [mkLib "l1" 0 (storeOf []) true false false false])] 0
    (storeOf [(unfilteredKey "x", .counts [("A", [some 1]), ("B", [none])]),
              (countsKey "x", .counts [("Z", [some 9])]),
              (scoresKey "x", .scores [("A", (some 1, some 1))]),
              (outliersKey "x", .outliers [])])
    "counts" "complete" ["x"] 5

/-- The store of `cSel1` after one `filter_counts` call. -/
def cS1x : Store :=
  cSel1.store.put (countsKey "x") (.counts [("A", [some 1])])

/-- Selection requesting wild-type normalization while one library has
no wild-type sequence. -/
def cSel8 : Selection :=
  mkSel [(0, [mkLib "a" 0 (storeOf []) false false false false]),
         (1, [mkLib "b" 1 (storeOf []) true false false false])] 0
    (storeOf []) "ratios" "wt" ["x"] 5

/-- Selection for the merge example: two libraries at timepoint 0 (one
lacking a row for B), one at timepoint 1 (lacking B as well). -/
def cSel2 : Selection :=
  mkSel
    [(0, [mkLib "l1" 0 (storeOf [(countsKey "x", .col [("A", some 1)])])
            true false false false,
          mkLib "l2" 0
            (storeOf [(countsKey "x", .col [("A", some 2), ("B", some 3)])])
            true false false false]),
     (1, [mkLib "l3" 1 (storeOf [(countsKey "x", .col [("A", some 5)])])
            true false false false])]
    0 (storeOf []) "counts" "complete" ["x"] 10

/-- Selection whose two libraries disagree on the element set of their
count tables, while the pipeline otherwise runs to completion. -/
def cSel5 : Selection :=
  mkSel
    [(0, [mkLib "a" 0
            (storeOf [(countsKey "x", .col [("A", some 1), ("B", some 1)])])
            true false false false]),
     (1, [mkLib "b" 1 (storeOf [(countsKey "x", .col [("A", some 2)])])
            true false false false])]
    0 (storeOf []) "counts" "complete" ["x"] 5

/-- Selection with two barcode maps that disagree on one barcode. -/
def cSel7 : Selection :=
  mkSel
    [(0, [mkLib "a" 0
            (storeOf [("/raw/barcodemap",
              .bcmap [("bc1", some "t2"), ("bc2", some "t1")])])
            true false false false,
          mkLib "b" 0
            (storeOf [("/raw/barcodemap",
              .bcmap [("bc1", some "tX"), ("bc3", some "t0")])])
            true false false false])]
    1 (storeOf []) "counts" "complete" ["barcodes"] 5

/-- Protein translation mapping every variant to one parent. -/
def cPv6 : String → String :=
  fun _ => "p1"

/-- Selection holding variant and synonymous scores, with one parent
having exactly three mapped children. -/
def cSel6 : Selection :=
  mkSel [(0, [mkLib "a" 0 (storeOf []) true false false false])] 0
    (storeOf [(countsKey "variants",
        .counts [("v1", [some 1]), ("v2", [some 1]), ("v3", [some 1])]),
      (scoresKey "variants",
        .scores [("v1", (some 1, some 1)), ("v2", (some 2, some 1)),
                 ("v3", (some 3, some 1))]),
      (scoresKey "synonymous", .scores [("p1", (some 2, some 1))])])
    "ratios" "complete" ["variants", "synonymous"] 5

/-- Barcode-identifier selection with score tables for barcodes and
identifiers and the merged barcode map present. -/
def cSel10 : Selection :=
  mkSel [(0, [mkLib "a" 0 (storeOf []) true false true false])] 1
    (storeOf [("/main/barcodemap", .bcmap [("bc1", some "id1")]),
      (scoresKey "barcodes", .scores [("bc1", (some 1, some 1))]),
      (scoresKey "identifiers", .scores [("id1", (some 1, some 1))])])
    "ratios" "complete" ["barcodes", "identifiers"] 5

/-- Selection for a full counts-method pipeline run. -/
def cSel9 : Selection :=
  mkSel
    [(0, [mkLib "l1" 0 (storeOf [(countsKey "x", .col [("A", some 1)])])
            true false false false]),
     (1, [mkLib "l2" 1 (storeOf [(countsKey "x", .col [("A", some 2)])])
            true false false false])]
    0 (storeOf []) "counts" "complete" ["x"] 5

/-! Store and key lemmas. -/

theorem Store.put_self (s : Store) (k : String) (t : TableVal) :
    (s.put k t) k = some t := by
  simp [Store.put]

theorem Store.put_other (s : Store) (k : String) (t : TableVal) (q : String)
    (h : q ≠ k) : (s.put k t) q = s q := by
  simp [Store.put, h]

theorem Store.put_put_same (s : Store) (k : String) (t : TableVal) :
    (s.put k t).put k t = s.put k t := by
  funext q
  by_cases h : q = k <;> simp [Store.put, h]

theorem tail7_append (a u : String) (h : 7 ≤ u.data.length) :
    tail7 (a ++ u) = u.data.reverse.take 7 := by
  unfold tail7
  rw [String.data_append, List.reverse_append, List.take_append_of_le_length]
  simpa using h

theorem countsKey_ne_unfilteredKey (a b : String) :
    countsKey a ≠ unfilteredKey b := by
  intro h
  have h7 := congrArg tail7 h
  rw [countsKey, unfilteredKey] at h7
  rw [tail7_append _ _ (by decide), tail7_append _ _ (by decide)] at h7
  exact absurd h7 (by decide)

theorem scoresKey_ne_countsKey (a b : String) :
    scoresKey a ≠ countsKey b := by
  intro h
  have h7 := congrArg tail7 h
  rw [scoresKey, countsKey] at h7
  rw [tail7_append _ _ (by decide), tail7_append _ _ (by decide)] at h7
  exact absurd h7 (by decide)

theorem scoresKey_ne_unfilteredKey (a b : String) :
    scoresKey a ≠ unfilteredKey b := by
  intro h
  have h7 := congrArg tail7 h
  rw [scoresKey, unfilteredKey] at h7
  rw [tail7_append _ _ (by decide), tail7_append _ _ (by decide)] at h7
  exact absurd h7 (by decide)

theorem scoresKey_ne_barcodemap (a : String) :
    scoresKey a ≠ "/main/barcodemap" := by
  intro h
  have h7 := congrArg tail7 h
  rw [scoresKey] at h7
  rw [tail7_append _ _ (by decide)] at h7
  exact absurd h7 (by decide)

/-! Claim C3. -/

/-- C3: after `filter_counts(label)` the filtered table is a row subset
of the unfiltered table, every kept row has a non-missing value in
every timepoint column, and every complete row of the unfiltered table
is kept (the complete-case policy). -/
theorem filter_counts_complete_cases (sel : Selection) (label : String)
    (df : DF) (h : sel.store (unfilteredKey label) = some (.counts df)) :
    ∃ kept : DF,
      filterCounts sel label =
        .ok (sel.store.put (countsKey label) (.counts kept)) ∧
      (∀ e, e ∈ dfIndex kept → e ∈ dfIndex df) ∧
      (∀ r ∈ kept, ∀ c ∈ r.2, c.isSome = true) ∧
      (∀ r ∈ df, (∀ c ∈ r.2, c.isSome = true) → r ∈ kept) := by
  refine ⟨df.filter (fun r => r.2.all (fun c => c.isSome)), ?_, ?_, ?_, ?_⟩
  · unfold filterCounts
    simp [h]
  · intro e he
    unfold dfIndex at he ⊢
    rcases List.mem_map.mp he with ⟨r, hr, rfl⟩
    exact List.mem_map.mpr ⟨r, (List.mem_filter.mp hr).1, rfl⟩
  · intro r hr c hc
    exact List.all_eq_true.mp (List.mem_filter.mp hr).2 c hc
  · intro r hr hall
    exact List.mem_filter.mpr ⟨hr, List.all_eq_true.mpr hall⟩

theorem filter_counts_complete_cases_witness :
    cSelF.store (unfilteredKey "x") = some (.counts cDfF) ∧
    (∃ kept : DF,
      filterCounts cSelF "x" =
        .ok (cSelF.store.put (countsKey "x") (.counts kept)) ∧
      (∀ e, e ∈ dfIndex kept → e ∈ dfIndex cDfF) ∧
      (∀ r ∈ kept, ∀ c ∈ r.2, c.isSome = true) ∧
      (∀ r ∈ cDfF, (∀ c ∈ r.2, c.isSome = true) → r ∈ kept)) :=
  ⟨rfl, filter_counts_complete_cases cSelF "x" cDfF rfl⟩

/-! Claim C4. -/

/-- C4 counterexample: with the filtered-counts destination present and
no force-recompute, `filter_counts` still recomputes and rewrites the
destination, changing its value. -/
theorem filter_counts_skip_counterexample :
    cSel4.forceRecalculate = false ∧
    (cSel4.store (countsKey "x")).isSome = true ∧
    runStore (filterCounts cSel4 "x") cSel4.store (countsKey "x") ≠
      cSel4.store (countsKey "x") := by
  refine ⟨rfl, rfl, ?_⟩
  decide

/-- C4 (amended): `filter_counts(label)` is not memoized: even when the
destination key exists and no force-recompute is requested, it
re-reads the unfiltered table and write-replaces the destination with
the recomputed filtered table. -/
theorem filter_counts_always_recomputes (sel : Selection) (label : String)
    (df : DF) (hdest : (sel.store (countsKey label)).isSome = true)
    (hf : sel.forceRecalculate = false)
    (h : sel.store (unfilteredKey label) = some (.counts df)) :
    filterCounts sel label =
      .ok (sel.store.put (countsKey label)
        (.counts (df.filter (fun r => r.2.all (fun c => c.isSome))))) := by
  unfold filterCounts
  simp [h]

theorem filter_counts_always_recomputes_witness :
    (cSel4.store (countsKey "x")).isSome = true ∧
    cSel4.forceRecalculate = false ∧
    cSel4.store (unfilteredKey "x") = some (.counts [("b", [some 2])]) ∧
    filterCounts cSel4 "x" =
      .ok (cSel4.store.put (countsKey "x")
        (.counts (List.filter (fun r => r.2.all (fun c => c.isSome))
          [("b", [some 2])]))) :=
  ⟨rfl, rfl, rfl,
    filter_counts_always_recomputes cSel4 "x" [("b", [some 2])] rfl rfl rfl⟩

/-! Claim C8. -/

/-- C8: requesting wild-type log-ratio normalization when not every
library supplies a wild-type sequence makes `validate` raise, and
`validate` never touches the store (it is independent of the store
contents, and the driver runs it before the stores are even opened). -/
theorem validate_requires_wt_for_wt_norm (sel : Selection)
    (h1 : sel.logrMethod = "wt") (h2 : sel.hasWtSequence = false) :
    (Selection.validate sel).isOk = false ∧
    ∀ st : Store,
      Selection.validate { sel with store := st } = Selection.validate sel := by
  constructor
  · unfold Selection.validate
    rw [h1, h2]
    split
    · rfl
    · split
      · rfl
      · split
        · rfl
        · split
          · rfl
          · rfl
  · intro st
    rfl

theorem validate_requires_wt_for_wt_norm_witness :
    cSel8.logrMethod = "wt" ∧ cSel8.hasWtSequence = false ∧
    ((Selection.validate cSel8).isOk = false ∧
      ∀ st : Store, Selection.validate { cSel8 with store := st } =
        Selection.validate cSel8) :=
  ⟨rfl, by decide, validate_requires_wt_for_wt_norm cSel8 rfl (by decide)⟩

/-! Claim C1. -/

/-- C1: with no force-recompute, each pipeline stage invoked again once
its destination exists leaves the store exactly as it was after the
first invocation: the aggregator, the scorer (spec-modelled
memoization) and the outlier detector return the store unchanged when
their destination key exists, and a second `filter_counts` call (which
has no destination check) deterministically rewrites the same value,
so the store after the second call equals the store after the first. -/
theorem pipeline_stage_reentry (sel : Selection) (label : String)
    (scoreTable : String → List (String × ScoreRow)) (pv : String → String)
    (hf : sel.forceRecalculate = false) :
    (sel.store.hasKey (unfilteredKey label) = true →
      mergeCountsUnfiltered sel label = .ok sel.store) ∧
    (∀ df s1, sel.store (unfilteredKey label) = some (.counts df) →
      filterCounts sel label = .ok s1 →
      filterCounts { sel with store := s1 } label = .ok s1) ∧
    ((∀ l ∈ sel.labels, sel.store.hasKey (scoresKey l) = true) →
      computeScores scoreTable sel = sel.store) ∧
    (sel.store.hasKey (outliersKey label) = true →
      calcOutliers pv sel label 4 20000 = .ok sel.store) := by
  refine ⟨?_, ?_, ?_, ?_⟩
  · intro h
    unfold mergeCountsUnfiltered Selection.checkStore
    simp [hf, h]
  · intro df s1 hu hfil
    have hs1 : s1 = sel.store.put (countsKey label)
        (.counts (df.filter (fun r => r.2.all (fun c => c.isSome)))) := by
      unfold filterCounts at hfil
      simp [hu] at hfil
      exact hfil.symm
    subst hs1
    have hread : (sel.store.put (countsKey label)
        (.counts (df.filter (fun r => r.2.all (fun c => c.isSome)))))
        (unfilteredKey label) = some (.counts df) := by
      rw [Store.put_other _ _ _ _
        (Ne.symm (countsKey_ne_unfilteredKey label label))]
      exact hu
    unfold filterCounts
    simp [hread, Store.put_put_same]
  · intro h
    unfold computeScores
    have hgen : ∀ ls : List String,
        (∀ l ∈ ls, sel.store.hasKey (scoresKey l) = true) →
        ls.foldl (fun s label =>
          if !sel.forceRecalculate && s.hasKey (scoresKey label) then s
          else s.put (scoresKey label) (.scores (scoreTable label)))
          sel.store = sel.store := by
      intro ls
      induction ls with
      | nil => intro _; rfl
      | cons a as ih =>
        intro hls
        have ha := hls a (by simp)
        simp only [List.foldl_cons]
        rw [if_pos]
        · exact ih (fun l hl => hls l (by simp [hl]))
        · simp [hf, ha]
    exact hgen sel.labels h
  · intro h
    unfold calcOutliers Selection.checkStore
    simp [hf, h]

theorem pipeline_stage_reentry_witness :
    cSel1.forceRecalculate = false ∧
    cSel1.store.hasKey (unfilteredKey "x") = true ∧
    mergeCountsUnfiltered cSel1 "x" = .ok cSel1.store ∧
    filterCounts cSel1 "x" = .ok cS1x ∧
    filterCounts { cSel1 with store := cS1x } "x" = .ok cS1x ∧
    computeScores cScoreF cSel1 = cSel1.store ∧
    calcOutliers cPv cSel1 "x" 4 20000 = .ok cSel1.store := by
  have h := pipeline_stage_reentry cSel1 "x" cScoreF cPv rfl
  exact ⟨rfl, rfl, h.1 rfl, rfl,
    h.2.1 [("A", [some 1]), ("B", [none])] cS1x rfl rfl,
    h.2.2.1 (by decide), h.2.2.2 rfl⟩

/-! Generic lemmas about the table operations. -/

theorem contains_iff {l : List String} {e : String} :
    l.contains e = true ↔ e ∈ l := by
  simp [List.contains]

theorem chunkGo_flatten (fuel n : ℕ) :
    ∀ l : List α, (chunkGo fuel n l).flatten = l := by
  induction fuel with
  | zero => intro l; cases l <;> simp [chunkGo]
  | succ f ih =>
      intro l
      cases l with
      | nil => simp [chunkGo]
      | cons x xs =>
          simp only [chunkGo, List.flatten_cons, ih]
          exact List.take_append_drop n (x :: xs)

theorem chunkList_flatten (n : ℕ) (l : List α) :
    (chunkList n l).flatten = l :=
  chunkGo_flatten l.length n l

theorem mem_chunkList {n : ℕ} {l : List α} {e : α} :
    (∃ c ∈ chunkList n l, e ∈ c) ↔ e ∈ l := by
  rw [← List.mem_flatten, chunkList_flatten]

theorem chunkList_ne_nil {n : ℕ} {l : List α} (h : l ≠ []) :
    chunkList n l ≠ [] := by
  cases l with
  | nil => exact absurd rfl h
  | cons x xs => simp [chunkList, chunkGo]

theorem find?_fst_map {β γ : Type} (g : String × β → String × γ)
    (hg : ∀ r, (g r).1 = r.1) (e : String) :
    ∀ t : List (String × β),
      (t.map g).find? (fun r => r.1 = e) =
        (t.find? (fun r => r.1 = e)).map g := by
  intro t
  induction t with
  | nil => rfl
  | cons r t ih =>
      by_cases h : r.1 = e <;> simp [List.find?_cons, hg, h, ih]

theorem find?_fst_filter {β : Type} (q : String × β → Bool) (e : String)
    (hq : ∀ r : String × β, r.1 = e → q r = true) :
    ∀ t : List (String × β),
      (t.filter q).find? (fun r => r.1 = e) = t.find? (fun r => r.1 = e) := by
  intro t
  induction t with
  | nil => rfl
  | cons r t ih =>
      by_cases h : r.1 = e
      · rw [List.filter_cons_of_pos (hq r h), List.find?_cons_of_pos,
          List.find?_cons_of_pos] <;> simp [h]
      · cases hqr : q r with
        | true =>
            rw [List.filter_cons_of_pos hqr, List.find?_cons_of_neg,
              List.find?_cons_of_neg, ih] <;> simp [h]
        | false =>
            rw [List.filter_cons_of_neg (by simp [hqr]), ih,
              List.find?_cons_of_neg]
            simp [h]

theorem cellOf_eq_none {t : ColTable} {e : String} (h : e ∉ colIndex t) :
    cellOf t e = none := by
  unfold cellOf
  rw [List.find?_eq_none.mpr]
  · rfl
  · intro r hr
    simp only [decide_eq_true_eq]
    intro hre
    exact h (List.mem_map.mpr ⟨r, hr, hre⟩)

theorem cellOf_find? {t : ColTable} {e : String} {r : String × Cell}
    (h : t.find? (fun s => s.1 = e) = some r) : cellOf t e = r.2 := by
  unfold cellOf
  rw [h]
  rfl

theorem cellOf_selectCol {t : ColTable} {chunk : List String} {e : String}
    (he : chunk.contains e = true) :
    cellOf (selectCol t chunk) e = cellOf t e := by
  unfold cellOf selectCol
  rw [find?_fst_filter _ _ (fun r hr => by rw [hr]; exact he)]

theorem mem_colIndex_iff {t : ColTable} {e : String} :
    e ∈ colIndex t ↔ ∃ c, t.find? (fun r => r.1 = e) = some c := by
  constructor
  · intro h
    rcases List.mem_map.mp h with ⟨r, hr, hre⟩
    have hs : (t.find? (fun s => s.1 = e)).isSome :=
      List.find?_isSome.mpr ⟨r, hr, by simp [hre]⟩
    exact Option.isSome_iff_exists.mp hs
  · intro ⟨c, hc⟩
    have h1 := List.find?_some hc
    have h2 := List.mem_of_find?_eq_some hc
    exact List.mem_map.mpr ⟨c, h2, by simpa using h1⟩

theorem not_mem_colIndex_of_find?_eq_none {t : ColTable} {e : String}
    (h : t.find? (fun r => r.1 = e) = none) : e ∉ colIndex t := by
  intro hmem
  rcases mem_colIndex_iff.mp hmem with ⟨c, hc⟩
  rw [h] at hc
  exact Option.noConfusion hc

theorem addCell_eq (a b : Cell) :
    addCell a b =
      if a.isNone && b.isNone then none
      else some (a.getD 0 + b.getD 0) := by
  cases a <;> cases b <;> rfl

theorem cellOf_colAdd (a b : ColTable) (e : String) :
    cellOf (colAdd a b) e = addCell (cellOf a e) (cellOf b e) := by
  have hdef : cellOf (colAdd a b) e =
      (((colAdd a b).find? (fun r => r.1 = e)).map Prod.snd).join := rfl
  have hsplit : (colAdd a b).find? (fun r => r.1 = e) =
      ((a.map (fun r => (r.1, addCell r.2 (cellOf b r.1)))).find?
        (fun r => r.1 = e)).or
      (((b.filter (fun r => !(colIndex a).contains r.1)).map
        (fun r => (r.1, addCell none r.2))).find? (fun r => r.1 = e)) := by
    unfold colAdd
    exact List.find?_append
  rw [hdef, hsplit,
    find?_fst_map (fun r : String × Cell => (r.1, addCell r.2 (cellOf b r.1)))
      (fun r => rfl) e a,
    find?_fst_map (fun r : String × Cell => (r.1, addCell none r.2))
      (fun r => rfl) e (b.filter (fun r => !(colIndex a).contains r.1))]
  cases ha : a.find? (fun r => r.1 = e) with
  | some r0 =>
      have h0 : r0.1 = e := by simpa using List.find?_some ha
      have hca : cellOf a e = r0.2 := cellOf_find? ha
      simp [Option.or, h0, hca]
  | none =>
      have hna : e ∉ colIndex a :=
        not_mem_colIndex_of_find?_eq_none ha
      have hca : cellOf a e = none := cellOf_eq_none hna
      have hfil : (b.filter (fun r => !(colIndex a).contains r.1)).find?
          (fun r => r.1 = e) = b.find? (fun r => r.1 = e) := by
        apply find?_fst_filter
        intro r hr
        rw [hr]
        simpa using hna
      rw [hfil]
      cases hb : b.find? (fun r => r.1 = e) with
      | some rb =>
          have h0 : rb.1 = e := by simpa using List.find?_some hb
          have hcb : cellOf b e = rb.2 := cellOf_find? hb
          simp [Option.or, h0, hca, hcb]
      | none =>
          have hnb : e ∉ colIndex b :=
            not_mem_colIndex_of_find?_eq_none hb
          simp [Option.or, hca, cellOf_eq_none hnb, addCell_eq]

theorem mem_colIndex_selectCol {t : ColTable} {chunk : List String}
    {e : String} :
    e ∈ colIndex (selectCol t chunk) ↔ e ∈ colIndex t ∧ e ∈ chunk := by
  constructor
  · intro h
    rcases List.mem_map.mp h with ⟨r, hr, rfl⟩
    have hf := List.mem_filter.mp hr
    exact ⟨List.mem_map.mpr ⟨r, hf.1, rfl⟩, contains_iff.mp hf.2⟩
  · rintro ⟨h1, h2⟩
    rcases List.mem_map.mp h1 with ⟨r, hr, rfl⟩
    exact List.mem_map.mpr
      ⟨r, List.mem_filter.mpr ⟨hr, contains_iff.mpr h2⟩, rfl⟩

theorem mem_colIndex_colAdd {a b : ColTable} {e : String} :
    e ∈ colIndex (colAdd a b) ↔ e ∈ colIndex a ∨ e ∈ colIndex b := by
  unfold colAdd
  rw [colIndex, List.map_append, List.mem_append]
  constructor
  · rintro (h | h)
    · left
      rcases List.mem_map.mp h with ⟨r, hr, rfl⟩
      rcases List.mem_map.mp hr with ⟨q, hq, rfl⟩
      exact List.mem_map.mpr ⟨q, hq, rfl⟩
    · right
      rcases List.mem_map.mp h with ⟨r, hr, rfl⟩
      rcases List.mem_map.mp hr with ⟨q, hq, rfl⟩
      exact List.mem_map.mpr ⟨q, (List.mem_filter.mp hq).1, rfl⟩
  · intro h
    by_cases hA : e ∈ colIndex a
    · left
      rcases List.mem_map.mp hA with ⟨q, hq, rfl⟩
      exact List.mem_map.mpr
        ⟨(q.1, addCell q.2 (cellOf b q.1)), List.mem_map.mpr ⟨q, hq, rfl⟩, rfl⟩
    · rcases h with h | h
      · exact absurd h hA
      · right
        rcases List.mem_map.mp h with ⟨q, hq, rfl⟩
        refine List.mem_map.mpr
          ⟨(q.1, addCell none q.2), List.mem_map.mpr ⟨q, ?_, rfl⟩, rfl⟩
        refine List.mem_filter.mpr ⟨hq, ?_⟩
        simpa using fun hmem => hA (contains_iff.mp hmem)

theorem labelDet_of_nodup {t : ColTable} (h : (colIndex t).Nodup) :
    labelDet t := by
  induction t with
  | nil => intro r hr; cases hr
  | cons s t ih =>
      have hnd := h
      rw [colIndex, List.map_cons, List.nodup_cons] at hnd
      intro r hr
      rcases List.mem_cons.mp hr with rfl | hr
      · show r.2 = cellOf (r :: t) r.1
        unfold cellOf
        simp [List.find?_cons]
      · have hne : s.1 ≠ r.1 := by
          intro hcontr
          exact hnd.1 (hcontr ▸ List.mem_map.mpr ⟨r, hr, rfl⟩)
        show r.2 = cellOf (s :: t) r.1
        unfold cellOf
        simp only [List.find?_cons, decide_eq_false hne]
        exact ih hnd.2 r hr

theorem labelDet_selectCol {t : ColTable} {chunk : List String}
    (h : labelDet t) : labelDet (selectCol t chunk) := by
  intro r hr
  have hf := List.mem_filter.mp hr
  rw [cellOf_selectCol hf.2]
  exact h r hf.1

theorem labelDet_colAdd {a b : ColTable} (ha : labelDet a)
    (hb : labelDet b) : labelDet (colAdd a b) := by
  intro r hr
  rcases List.mem_append.mp hr with h | h
  · rcases List.mem_map.mp h with ⟨q, hq, rfl⟩
    rw [cellOf_colAdd]
    exact congrArg (fun c => addCell c (cellOf b q.1)) (ha q hq)
  · rcases List.mem_map.mp h with ⟨q, hq, rfl⟩
    have hqf := List.mem_filter.mp hq
    have hqa : q.1 ∉ colIndex a := by
      intro hmem
      have := hqf.2
      rw [contains_iff.mpr hmem] at this
      exact Bool.noConfusion this
    rw [cellOf_colAdd, cellOf_eq_none hqa]
    exact congrArg (fun c => addCell none c) (hb q hqf.1)

theorem labelDet_tpCol (libs : List SeqLib) (key : String)
    (chunk : List String)
    (hNd : ∀ lib ∈ libs, (libIndexD lib key).Nodup) :
    labelDet (tpCol libs key chunk) := by
  cases libs with
  | nil => intro r hr; cases hr
  | cons l0 rest =>
      have hgen : ∀ (ls : List SeqLib) (acc : ColTable),
          (∀ lib ∈ ls, (libIndexD lib key).Nodup) → labelDet acc →
          labelDet (ls.foldl
            (fun c lib => colAdd c (selectCol (libTableD lib key) chunk))
            acc) := by
        intro ls
        induction ls with
        | nil => intro acc _ hacc; exact hacc
        | cons l ls ih =>
            intro acc hnd hacc
            rw [List.foldl_cons]
            refine ih _ (fun lib hl => hnd lib (by simp [hl])) ?_
            exact labelDet_colAdd hacc
              (labelDet_selectCol (labelDet_of_nodup (hnd l (by simp))))
      exact hgen rest _ (fun lib hl => hNd lib (by simp [hl]))
        (labelDet_selectCol (labelDet_of_nodup (hNd l0 (by simp))))

theorem cellOf_tpCol (libs : List SeqLib) (key : String)
    (chunk : List String) (e : String) (he : chunk.contains e = true) :
    cellOf (tpCol libs key chunk) e =
      (libs.map (fun lib => cellOf (libTableD lib key) e)).foldl
        addCell none := by
  cases libs with
  | nil => rfl
  | cons l0 rest =>
      have hgen : ∀ (ls : List SeqLib) (acc : ColTable),
          cellOf (ls.foldl
            (fun c lib => colAdd c (selectCol (libTableD lib key) chunk))
            acc) e =
          (ls.map (fun lib => cellOf (libTableD lib key) e)).foldl addCell
            (cellOf acc e) := by
        intro ls
        induction ls with
        | nil => intro acc; rfl
        | cons l ls ih =>
            intro acc
            rw [List.foldl_cons, ih, List.map_cons, List.foldl_cons,
              cellOf_colAdd, cellOf_selectCol he]
      have htp : tpCol (l0 :: rest) key chunk =
          rest.foldl
            (fun c lib => colAdd c (selectCol (libTableD lib key) chunk))
            (selectCol (libTableD l0 key) chunk) := rfl
      rw [htp, hgen, cellOf_selectCol he, List.map_cons, List.foldl_cons]
      congr 1
      cases cellOf (libTableD l0 key) e <;> simp [addCell_eq]

theorem mem_colIndex_tpCol {libs : List SeqLib} {key : String}
    {chunk : List String} {e : String} :
    e ∈ colIndex (tpCol libs key chunk) ↔
      e ∈ chunk ∧ ∃ lib ∈ libs, e ∈ libIndexD lib key := by
  cases libs with
  | nil => simp [tpCol, colIndex]
  | cons l0 rest =>
      have hgen : ∀ (ls : List SeqLib) (acc : ColTable),
          e ∈ colIndex (ls.foldl
            (fun c lib => colAdd c (selectCol (libTableD lib key) chunk))
            acc) ↔
          e ∈ colIndex acc ∨
            ∃ lib ∈ ls, e ∈ libIndexD lib key ∧ e ∈ chunk := by
        intro ls
        induction ls with
        | nil => intro acc; simp
        | cons l ls ih =>
            intro acc
            rw [List.foldl_cons, ih, mem_colIndex_colAdd,
              mem_colIndex_selectCol]
            unfold libIndexD
            constructor
            · rintro ((h | h) | h)
              · exact Or.inl h
              · exact Or.inr ⟨l, by simp, h.1, h.2⟩
              · rcases h with ⟨lib, hl, h1, h2⟩
                exact Or.inr ⟨lib, by simp [hl], h1, h2⟩
            · rintro (h | ⟨lib, hl, h1, h2⟩)
              · exact Or.inl (Or.inl h)
              · rcases List.mem_cons.mp hl with rfl | hl
                · exact Or.inl (Or.inr ⟨h1, h2⟩)
                · exact Or.inr ⟨lib, hl, h1, h2⟩
      have htp : tpCol (l0 :: rest) key chunk =
          rest.foldl
            (fun c lib => colAdd c (selectCol (libTableD lib key) chunk))
            (selectCol (libTableD l0 key) chunk) := rfl
      rw [htp, hgen, mem_colIndex_selectCol]
      unfold libIndexD
      constructor
      · rintro (⟨h1, h2⟩ | ⟨lib, hl, h1, h2⟩)
        · exact ⟨h2, l0, by simp, h1⟩
        · exact ⟨h2, lib, by simp [hl], h1⟩
      · rintro ⟨hc, lib, hl, h1⟩
        rcases List.mem_cons.mp hl with rfl | hl
        · exact Or.inl ⟨h1, hc⟩
        · exact Or.inr ⟨lib, hl, h1, hc⟩

theorem foldl_addCell_eq (cs : List Cell) : ∀ c0 : Cell,
    cs.foldl addCell c0 =
      if c0.isNone && cs.all (fun c => c.isNone) then none
      else some (c0.getD 0 + (cs.map (fun c => c.getD 0)).sum) := by
  induction cs with
  | nil =>
      intro c0
      cases c0 <;> simp
  | cons c cs ih =>
      intro c0
      rw [List.foldl_cons, ih (addCell c0 c)]
      by_cases hall : cs.all (fun x => x.isNone) = true
      · cases c0 <;> cases c <;>
          simp [addCell_eq, List.all_cons, hall] <;> omega
      · have hallf : cs.all (fun x => x.isNone) = false := by
          cases hx : cs.all (fun x => x.isNone)
          · rfl
          · exact absurd hx hall
        cases c0 <;> cases c <;>
          simp [addCell_eq, List.all_cons, hallf] <;> omega

theorem not_contains_of_not_mem {l : List String} {e : String}
    (h : e ∉ l) : (!l.contains e) = true := by
  cases hc : l.contains e
  · rfl
  · exact absurd (contains_iff.mp hc) h

theorem mem_dfIndex_dfJoin {a : DF} {w : ℕ} {b : ColTable} {e : String} :
    e ∈ dfIndex (dfJoin a w b) ↔ e ∈ dfIndex a ∨ e ∈ colIndex b := by
  unfold dfJoin
  rw [dfIndex, List.map_append, List.mem_append]
  constructor
  · rintro (h | h)
    · left
      rcases List.mem_map.mp h with ⟨r, hr, rfl⟩
      rcases List.mem_map.mp hr with ⟨q, hq, rfl⟩
      exact List.mem_map.mpr ⟨q, hq, rfl⟩
    · right
      rcases List.mem_map.mp h with ⟨r, hr, rfl⟩
      rcases List.mem_map.mp hr with ⟨q, hq, rfl⟩
      exact List.mem_map.mpr ⟨q, (List.mem_filter.mp hq).1, rfl⟩
  · intro h
    by_cases hA : e ∈ dfIndex a
    · left
      rcases List.mem_map.mp hA with ⟨q, hq, rfl⟩
      exact List.mem_map.mpr
        ⟨(q.1, q.2 ++ [cellOf b q.1]), List.mem_map.mpr ⟨q, hq, rfl⟩, rfl⟩
    · rcases h with h | h
      · exact absurd h hA
      · right
        rcases List.mem_map.mp h with ⟨q, hq, rfl⟩
        refine List.mem_map.mpr
          ⟨(q.1, List.replicate w none ++ [q.2]),
            List.mem_map.mpr ⟨q, ?_, rfl⟩, rfl⟩
        exact List.mem_filter.mpr ⟨hq, not_contains_of_not_mem hA⟩

theorem joinFold_inv (colFn : ℤ → ColTable) :
    ∀ (tps : List ℤ) (done : List ℤ) (acc : DF),
    (∀ tp ∈ tps, labelDet (colFn tp)) →
    (∀ e, e ∈ dfIndex acc ↔ ∃ tp ∈ done, e ∈ colIndex (colFn tp)) →
    (∀ r ∈ acc, r.2 = done.map (fun tp => cellOf (colFn tp) r.1)) →
    (∀ e, e ∈ dfIndex (tps.foldl
        (fun p tp => (dfJoin p.1 p.2 (colFn tp), p.2 + 1))
        (acc, done.length)).1 ↔
      ∃ tp ∈ done ++ tps, e ∈ colIndex (colFn tp)) ∧
    (∀ r ∈ (tps.foldl (fun p tp => (dfJoin p.1 p.2 (colFn tp), p.2 + 1))
        (acc, done.length)).1,
      r.2 = (done ++ tps).map (fun tp => cellOf (colFn tp) r.1)) := by
  intro tps
  induction tps with
  | nil =>
      intro done acc _ hmem hrows
      constructor
      · intro e
        simpa using hmem e
      · intro r hr
        simpa using hrows r hr
  | cons tp tps ih =>
      intro done acc hdet hmem hrows
      rw [List.foldl_cons]
      have hmem2 : ∀ e, e ∈ dfIndex (dfJoin acc done.length (colFn tp)) ↔
          ∃ t ∈ done ++ [tp], e ∈ colIndex (colFn t) := by
        intro e
        rw [mem_dfIndex_dfJoin, hmem]
        constructor
        · rintro (⟨t, ht, h⟩ | h)
          · exact ⟨t, by simp [ht], h⟩
          · exact ⟨tp, by simp, h⟩
        · rintro ⟨t, ht, h⟩
          rcases List.mem_append.mp ht with ht | ht
          · exact Or.inl ⟨t, ht, h⟩
          · rcases List.mem_singleton.mp ht with rfl
            exact Or.inr h
      have hrows2 : ∀ r ∈ dfJoin acc done.length (colFn tp),
          r.2 = (done ++ [tp]).map (fun t => cellOf (colFn t) r.1) := by
        intro r hr
        rcases List.mem_append.mp hr with h | h
        · rcases List.mem_map.mp h with ⟨q, hq, rfl⟩
          have hv := hrows q hq
          simp only [List.map_append, List.map_cons, List.map_nil]
          rw [← hv]
        · rcases List.mem_map.mp h with ⟨q, hq, rfl⟩
          have hqf := List.mem_filter.mp hq
          have hqa : q.1 ∉ dfIndex acc := by
            intro hmemq
            have := hqf.2
            rw [contains_iff.mpr hmemq] at this
            exact Bool.noConfusion this
          have hrep : done.map (fun t => cellOf (colFn t) q.1) =
              List.replicate done.length none := by
            have h1 : ∀ c ∈ done.map (fun t => cellOf (colFn t) q.1),
                c = none := by
              intro c hc
              rcases List.mem_map.mp hc with ⟨t, ht, rfl⟩
              exact cellOf_eq_none
                (fun hq1 => hqa ((hmem q.1).mpr ⟨t, ht, hq1⟩))
            have h2 := List.eq_replicate_of_mem h1
            rwa [List.length_map] at h2
          have hq2 : q.2 = cellOf (colFn tp) q.1 :=
            hdet tp (by simp) q hqf.1
          simp only [List.map_append, List.map_cons, List.map_nil]
          rw [hrep, ← hq2]
      have hlen : done.length + 1 = (done ++ [tp]).length := by simp
      have hres := ih (done ++ [tp]) (dfJoin acc done.length (colFn tp))
        (fun t ht => hdet t (by simp [ht])) hmem2 hrows2
      rw [List.append_assoc] at hres
      simp only [List.singleton_append] at hres
      rw [hlen]
      exact hres

theorem chunkFrame_spec (sel : Selection) (key : String)
    (chunk : List String)
    (hNd : ∀ tp ∈ sel.timepoints, ∀ lib ∈ sel.libsAt tp,
      (libIndexD lib key).Nodup) :
    (∀ e, e ∈ dfIndex (chunkFrame sel key chunk) ↔
      ∃ tp ∈ sel.timepoints,
        e ∈ colIndex (tpCol (sel.libsAt tp) key chunk)) ∧
    (∀ r ∈ chunkFrame sel key chunk,
      r.2 = sel.timepoints.map
        (fun tp => cellOf (tpCol (sel.libsAt tp) key chunk) r.1)) := by
  cases htp : sel.timepoints with
  | nil =>
      constructor
      · intro e
        simp [chunkFrame, htp, dfIndex]
      · intro r hr
        simp [chunkFrame, htp] at hr
  | cons t0 rest =>
      have hc : chunkFrame sel key chunk =
          (rest.foldl
            (fun acc tp =>
              (dfJoin acc.1 acc.2 (tpCol (sel.libsAt tp) key chunk),
                acc.2 + 1))
            ((tpCol (sel.libsAt t0) key chunk).map (fun r => (r.1, [r.2])),
              1)).1 := by
        unfold chunkFrame
        rw [htp]
      have hdet0 : labelDet (tpCol (sel.libsAt t0) key chunk) :=
        labelDet_tpCol _ _ _ (hNd t0 (by rw [htp]; simp))
      have hidx : dfIndex ((tpCol (sel.libsAt t0) key chunk).map
          (fun r => (r.1, [r.2]))) =
          colIndex (tpCol (sel.libsAt t0) key chunk) := by
        unfold dfIndex colIndex
        rw [List.map_map]
        rfl
      have hmem0 : ∀ e, e ∈ dfIndex ((tpCol (sel.libsAt t0) key chunk).map
          (fun r => (r.1, [r.2]))) ↔
          ∃ tp ∈ [t0], e ∈ colIndex (tpCol (sel.libsAt tp) key chunk) := by
        intro e
        rw [hidx]
        simp
      have hrows0 : ∀ r ∈ (tpCol (sel.libsAt t0) key chunk).map
          (fun r => (r.1, [r.2])),
          r.2 = [t0].map
            (fun tp => cellOf (tpCol (sel.libsAt tp) key chunk) r.1) := by
        intro r hr
        rcases List.mem_map.mp hr with ⟨q, hq, rfl⟩
        simp only [List.map_cons, List.map_nil]
        exact congrArg (fun c => [c]) (hdet0 q hq)
      have hdetRest : ∀ tp ∈ rest,
          labelDet (tpCol (sel.libsAt tp) key chunk) :=
        fun tp ht => labelDet_tpCol _ _ _ (hNd tp (by rw [htp]; simp [ht]))
      have hinv := joinFold_inv
        (fun tp => tpCol (sel.libsAt tp) key chunk) rest [t0]
        ((tpCol (sel.libsAt t0) key chunk).map (fun r => (r.1, [r.2])))
        hdetRest hmem0 hrows0
      rw [hc]
      exact hinv

theorem mem_indexUnion {a b : List String} {e : String} :
    e ∈ indexUnion a b ↔ e ∈ a ∨ e ∈ b := by
  unfold indexUnion
  rw [List.mem_append]
  constructor
  · rintro (h | h)
    · exact Or.inl h
    · exact Or.inr (List.mem_filter.mp h).1
  · rintro (h | h)
    · exact Or.inl h
    · by_cases ha : e ∈ a
      · exact Or.inl ha
      · exact Or.inr (List.mem_filter.mpr ⟨h, not_contains_of_not_mem ha⟩)

theorem mem_completeIndexPure {sel : Selection} {key : String} {e : String} :
    e ∈ completeIndexPure sel key ↔
      ∃ tp ∈ sel.timepoints, ∃ lib ∈ sel.libsAt tp,
        e ∈ libIndexD lib key := by
  have hinner : ∀ (libs : List SeqLib) (acc : List String),
      e ∈ libs.foldl (fun a lib => indexUnion a (libIndexD lib key)) acc ↔
        e ∈ acc ∨ ∃ lib ∈ libs, e ∈ libIndexD lib key := by
    intro libs
    induction libs with
    | nil => intro acc; simp
    | cons l ls ih =>
        intro acc
        rw [List.foldl_cons, ih, mem_indexUnion]
        constructor
        · rintro ((h | h) | ⟨lib, hl, hm⟩)
          · exact Or.inl h
          · exact Or.inr ⟨l, by simp, h⟩
          · exact Or.inr ⟨lib, by simp [hl], hm⟩
        · rintro (h | ⟨lib, hl, hm⟩)
          · exact Or.inl (Or.inl h)
          · rcases List.mem_cons.mp hl with rfl | hl
            · exact Or.inl (Or.inr hm)
            · exact Or.inr ⟨lib, hl, hm⟩
  have houter : ∀ (tps : List ℤ) (acc : List String),
      e ∈ tps.foldl (fun acc tp => (sel.libsAt tp).foldl
          (fun a lib => indexUnion a (libIndexD lib key)) acc) acc ↔
        e ∈ acc ∨ ∃ tp ∈ tps, ∃ lib ∈ sel.libsAt tp,
          e ∈ libIndexD lib key := by
    intro tps
    induction tps with
    | nil => intro acc; simp
    | cons t ts ih =>
        intro acc
        rw [List.foldl_cons, ih, hinner]
        constructor
        · rintro ((h | ⟨lib, hl, hm⟩) | ⟨tp, ht, lib, hl, hm⟩)
          · exact Or.inl h
          · exact Or.inr ⟨t, by simp, lib, hl, hm⟩
          · exact Or.inr ⟨tp, by simp [ht], lib, hl, hm⟩
        · rintro (h | ⟨tp, ht, lib, hl, hm⟩)
          · exact Or.inl (Or.inl h)
          · rcases List.mem_cons.mp ht with rfl | ht
            · exact Or.inl (Or.inr ⟨lib, hl, hm⟩)
            · exact Or.inr ⟨tp, ht, lib, hl, hm⟩
  have h := houter sel.timepoints []
  unfold completeIndexPure
  simpa using h

theorem completeIndex_eq_pure (sel : Selection) (key : String)
    (hT : ∀ tp ∈ sel.timepoints, ∀ lib ∈ sel.libsAt tp,
      (libColTable lib key).isSome = true) :
    completeIndex sel key = .ok (completeIndexPure sel key) := by
  have hinner : ∀ (libs : List SeqLib) (acc : List String),
      (∀ lib ∈ libs, (libColTable lib key).isSome = true) →
      libs.foldlM (fun acc2 lib =>
        match libColTable lib key with
        | some t => Except.ok (indexUnion acc2 (colIndex t))
        | none =>
            Except.error "KeyError: no such table in library store") acc =
      (Except.ok (libs.foldl
        (fun a lib => indexUnion a (libIndexD lib key)) acc) :
        Except String (List String)) := by
    intro libs
    induction libs with
    | nil => intro acc _; rfl
    | cons l ls ih =>
        intro acc hs
        have h0 := hs l (by simp)
        cases hl : libColTable l key with
        | none => rw [hl] at h0; exact Bool.noConfusion h0
        | some t =>
            rw [List.foldlM_cons, hl]
            have hst : libIndexD l key = colIndex t := by
              unfold libIndexD libTableD
              rw [hl]
              rfl
            rw [List.foldl_cons, hst]
            exact ih _ (fun lib hm => hs lib (by simp [hm]))
  have houter : ∀ (tps : List ℤ) (acc : List String),
      (∀ tp ∈ tps, ∀ lib ∈ sel.libsAt tp,
        (libColTable lib key).isSome = true) →
      tps.foldlM (fun acc tp =>
        (sel.libsAt tp).foldlM (fun acc2 lib =>
          match libColTable lib key with
          | some t => Except.ok (indexUnion acc2 (colIndex t))
          | none =>
              Except.error "KeyError: no such table in library store") acc)
        acc =
      (Except.ok (tps.foldl (fun acc tp => (sel.libsAt tp).foldl
        (fun a lib => indexUnion a (libIndexD lib key)) acc) acc) :
        Except String (List String)) := by
    intro tps
    induction tps with
    | nil => intro acc _; rfl
    | cons t ts ih =>
        intro acc hs
        rw [List.foldlM_cons, hinner _ _ (hs t (by simp))]
        show ts.foldlM _ _ = _
        rw [List.foldl_cons]
        exact ih _ (fun tp hm => hs tp (by simp [hm]))
  exact houter sel.timepoints [] hT

theorem foldl_appendCounts_some (frame : List String → DF) (k : String) :
    ∀ (chunks : List (List String)) (s : Store) (t : DF),
      s k = some (.counts t) →
      (chunks.foldl (fun s c => s.appendCounts k (frame c)) s) k =
        some (.counts (t ++ (chunks.map frame).flatten)) := by
  intro chunks
  induction chunks with
  | nil =>
      intro s t h
      simpa using h
  | cons c cs ih =>
      intro s t h
      rw [List.foldl_cons]
      have hstep : (s.appendCounts k (frame c)) k =
          some (.counts (t ++ frame c)) := by
        unfold Store.appendCounts
        rw [h]
        exact Store.put_self _ _ _
      rw [ih _ _ hstep]
      simp [List.append_assoc]

theorem foldl_appendCounts_none (frame : List String → DF) (k : String)
    (chunks : List (List String)) (s : Store) (h : s k = none)
    (hne : chunks ≠ []) :
    (chunks.foldl (fun s c => s.appendCounts k (frame c)) s) k =
      some (.counts ((chunks.map frame).flatten)) := by
  cases chunks with
  | nil => exact absurd rfl hne
  | cons c cs =>
      rw [List.foldl_cons]
      have hstep : (s.appendCounts k (frame c)) k =
          some (.counts (frame c)) := by
        unfold Store.appendCounts
        rw [h]
        exact Store.put_self _ _ _
      rw [foldl_appendCounts_some frame k cs _ _ hstep]
      simp

theorem appendCounts_other (s : Store) (k : String) (rows : DF) (q : String)
    (hq : q ≠ k) : (s.appendCounts k rows) q = s q := by
  unfold Store.appendCounts
  cases hsk : s k with
  | none => exact Store.put_other _ _ _ _ hq
  | some v => cases v <;> exact Store.put_other _ _ _ _ hq

theorem foldl_appendCounts_other (frame : List String → DF) (k : String)
    (q : String) (hq : q ≠ k) :
    ∀ (chunks : List (List String)) (s : Store),
      (chunks.foldl (fun s c => s.appendCounts k (frame c)) s) q = s q := by
  intro chunks
  induction chunks with
  | nil => intro s; rfl
  | cons c cs ih =>
      intro s
      rw [List.foldl_cons, ih]
      exact appendCounts_other _ _ _ _ hq

theorem mem_dfIndex_flatten {L : List DF} {e : String} :
    e ∈ dfIndex L.flatten ↔ ∃ d ∈ L, e ∈ dfIndex d := by
  unfold dfIndex
  constructor
  · intro h
    rcases List.mem_map.mp h with ⟨r, hr, rfl⟩
    rcases List.mem_flatten.mp hr with ⟨d, hd, hrd⟩
    exact ⟨d, hd, List.mem_map.mpr ⟨r, hrd, rfl⟩⟩
  · rintro ⟨d, hd, h⟩
    rcases List.mem_map.mp h with ⟨r, hr, rfl⟩
    exact List.mem_map.mpr ⟨r, List.mem_flatten.mpr ⟨d, hd, hr⟩, rfl⟩

theorem cellOf_tpCol_eq_spec (sel : Selection) (key : String) (tp : ℤ)
    (chunk : List String) (e : String) (he : e ∈ chunk)
    (hCells : ∀ lib ∈ sel.libsAt tp, ∀ r ∈ libTableD lib key,
      r.2.isSome = true) :
    cellOf (tpCol (sel.libsAt tp) key chunk) e =
      specTimepointCell sel key tp e := by
  rw [cellOf_tpCol _ _ _ _ (contains_iff.mpr he), foldl_addCell_eq]
  unfold specTimepointCell
  have hcell : ∀ lib ∈ sel.libsAt tp,
      ((cellOf (libTableD lib key) e).isNone = true ↔
        e ∉ libIndexD lib key) := by
    intro lib hl
    constructor
    · intro hn hm
      rcases mem_colIndex_iff.mp hm with ⟨c, hc⟩
      have h2 := cellOf_find? hc
      have h3 := hCells lib hl c (List.mem_of_find?_eq_some hc)
      rw [h2] at hn
      rw [Option.isNone_iff_eq_none] at hn
      rw [hn] at h3
      exact Bool.noConfusion h3
    · intro hm
      rw [cellOf_eq_none hm]
      rfl
  by_cases hAny : (sel.libsAt tp).any
      (fun lib => (libIndexD lib key).contains e) = true
  · rcases List.any_eq_true.mp hAny with ⟨lib, hl, hcont⟩
    have hnotnone : ((sel.libsAt tp).map
        (fun lib => cellOf (libTableD lib key) e)).all
        (fun c => c.isNone) = false := by
      rw [Bool.eq_false_iff]
      intro hall
      have h1 := List.all_eq_true.mp hall _
        (List.mem_map.mpr ⟨lib, hl, rfl⟩)
      exact absurd (contains_iff.mp hcont) ((hcell lib hl).mp h1)
    have hc1 : ¬ (((none : Cell).isNone && ((sel.libsAt tp).map
        (fun lib => cellOf (libTableD lib key) e)).all
        (fun c => c.isNone)) = true) := by
      simp [hnotnone]
    rw [if_neg hc1, if_pos hAny]
    congr 1
    rw [List.map_map]
    have hcomp : ((fun c : Cell => Option.getD c 0) ∘
        fun lib => cellOf (libTableD lib key) e) =
        (fun lib => Option.getD (cellOf (libTableD lib key) e) 0) := rfl
    rw [hcomp]
    exact Int.zero_add _
  · have hAnyF : (sel.libsAt tp).any
        (fun lib => (libIndexD lib key).contains e) = false := by
      rw [Bool.eq_false_iff]
      exact hAny
    have hall : ((sel.libsAt tp).map
        (fun lib => cellOf (libTableD lib key) e)).all
        (fun c => c.isNone) = true := by
      rw [List.all_eq_true]
      intro c hc
      rcases List.mem_map.mp hc with ⟨lib, hl, rfl⟩
      refine (hcell lib hl).mpr ?_
      intro hm
      rw [List.any_eq_true] at hAny
      exact hAny ⟨lib, hl, contains_iff.mpr hm⟩
    have hc1 : (((none : Cell).isNone && ((sel.libsAt tp).map
        (fun lib => cellOf (libTableD lib key) e)).all
        (fun c => c.isNone)) = true) := by
      simp [hall]
    have hc2 : ¬ (((sel.libsAt tp).any
        (fun lib => (libIndexD lib key).contains e)) = true) := by
      rw [hAnyF]
      exact Bool.false_ne_true
    rw [if_pos hc1, if_neg hc2]

/-! Claim C2. -/

/-- C2: `merge_counts_unfiltered(label)` writes an unfiltered counts
table whose row set is the union of the element identifiers of all
per-library raw tables over all timepoints, and in which the cell of
element e at a timepoint is the sum over the libraries of that
timepoint with missing-row-as-zero fill, or a missing value when no
library at that timepoint has a row for e. -/
theorem merge_counts_unfiltered_union (sel : Selection) (label : String)
    (hf : sel.forceRecalculate = false)
    (habs : sel.store (unfilteredKey label) = none)
    (hcs : ¬ sel.chunksize = 0)
    (hT : ∀ tp ∈ sel.timepoints, ∀ lib ∈ sel.libsAt tp,
      (libColTable lib (countsKey label)).isSome = true)
    (hCells : ∀ tp ∈ sel.timepoints, ∀ lib ∈ sel.libsAt tp,
      ∀ r ∈ libTableD lib (countsKey label), r.2.isSome = true)
    (hNd : ∀ tp ∈ sel.timepoints, ∀ lib ∈ sel.libsAt tp,
      (libIndexD lib (countsKey label)).Nodup)
    (hne : completeIndexPure sel (countsKey label) ≠ []) :
    ∃ s2 : Store, ∃ T : DF,
      mergeCountsUnfiltered sel label = .ok s2 ∧
      s2 (unfilteredKey label) = some (.counts T) ∧
      (∀ e, e ∈ dfIndex T ↔
        ∃ tp ∈ sel.timepoints, ∃ lib ∈ sel.libsAt tp,
          e ∈ libIndexD lib (countsKey label)) ∧
      (∀ r ∈ T, r.2 = sel.timepoints.map
        (fun tp => specTimepointCell sel (countsKey label) tp r.1)) := by
  have hkey : sel.store.hasKey (unfilteredKey label) = false := by
    unfold Store.hasKey
    rw [habs]
    rfl
  have hcheck : sel.checkStore (unfilteredKey label) = false := by
    unfold Selection.checkStore
    rw [hf, hkey]
    rfl
  have hci := completeIndex_eq_pure sel (countsKey label) hT
  have hmerge : mergeCountsUnfiltered sel label =
      .ok ((chunkList sel.chunksize
          (completeIndexPure sel (countsKey label))).foldl
        (fun s c => s.appendCounts (unfilteredKey label)
          (chunkFrame sel (countsKey label) c)) sel.store) := by
    unfold mergeCountsUnfiltered
    rw [hcheck, hkey, hci]
    simp [hcs]
  refine ⟨_, ((chunkList sel.chunksize
      (completeIndexPure sel (countsKey label))).map
      (fun c => chunkFrame sel (countsKey label) c)).flatten,
    hmerge, ?_, ?_, ?_⟩
  · exact foldl_appendCounts_none _ _ _ _ habs (chunkList_ne_nil hne)
  · intro e
    rw [mem_dfIndex_flatten]
    constructor
    · rintro ⟨d, hd, hmemd⟩
      rcases List.mem_map.mp hd with ⟨c, hc, rfl⟩
      rcases ((chunkFrame_spec sel (countsKey label) c hNd).1 e).mp hmemd
        with ⟨tp, htp, hcol⟩
      rcases mem_colIndex_tpCol.mp hcol with ⟨hec, lib, hl, hm⟩
      exact ⟨tp, htp, lib, hl, hm⟩
    · rintro ⟨tp, htp, lib, hl, hm⟩
      have hecidx : e ∈ completeIndexPure sel (countsKey label) :=
        mem_completeIndexPure.mpr ⟨tp, htp, lib, hl, hm⟩
      rcases (mem_chunkList (n := sel.chunksize)).mpr hecidx
        with ⟨c, hc, hec⟩
      refine ⟨chunkFrame sel (countsKey label) c,
        List.mem_map.mpr ⟨c, hc, rfl⟩, ?_⟩
      exact ((chunkFrame_spec sel (countsKey label) c hNd).1 e).mpr
        ⟨tp, htp, mem_colIndex_tpCol.mpr ⟨hec, lib, hl, hm⟩⟩
  · intro r hr
    rcases List.mem_flatten.mp hr with ⟨d, hd, hrd⟩
    rcases List.mem_map.mp hd with ⟨c, hc, rfl⟩
    have hspec := chunkFrame_spec sel (countsKey label) c hNd
    have hval := hspec.2 r hrd
    have hmemr : r.1 ∈ dfIndex (chunkFrame sel (countsKey label) c) :=
      List.mem_map.mpr ⟨r, hrd, rfl⟩
    rcases (hspec.1 r.1).mp hmemr with ⟨tp0, htp0, hcol0⟩
    have hrc : r.1 ∈ c := (mem_colIndex_tpCol.mp hcol0).1
    rw [hval]
    apply List.map_congr_left
    intro tp htp
    exact cellOf_tpCol_eq_spec sel (countsKey label) tp c r.1 hrc
      (hCells tp htp)

theorem merge_counts_unfiltered_union_witness :
    runStore (mergeCountsUnfiltered cSel2 "x") cSel2.store
        (unfilteredKey "x") =
      some (.counts [("A", [some 3, some 5]), ("B", [some 3, none])]) ∧
    (∃ s2 : Store, ∃ T : DF,
      mergeCountsUnfiltered cSel2 "x" = .ok s2 ∧
      s2 (unfilteredKey "x") = some (.counts T) ∧
      (∀ e, e ∈ dfIndex T ↔
        ∃ tp ∈ cSel2.timepoints, ∃ lib ∈ cSel2.libsAt tp,
          e ∈ libIndexD lib (countsKey "x")) ∧
      (∀ r ∈ T, r.2 = cSel2.timepoints.map
        (fun tp => specTimepointCell cSel2 (countsKey "x") tp r.1))) :=
  ⟨by decide,
    merge_counts_unfiltered_union cSel2 "x" rfl rfl (by decide) (by decide)
      (by decide) (by decide) (by decide)⟩

/-! Claim C5. -/

theorem interIdx_toFinset (a b : List String) :
    (interIdx a b).toFinset = a.toFinset ∩ b.toFinset := by
  ext x
  simp [interIdx, List.mem_dedup, contains_iff]

theorem interIdx_nodup (a b : List String) : (interIdx a b).Nodup :=
  (List.nodup_dedup a).filter _

theorem foldl_interIdx_toFinset :
    ∀ (rest : List (List String)) (i0 : List String),
    (rest.foldl interIdx i0).toFinset =
      rest.foldl (fun s l => s ∩ l.toFinset) i0.toFinset := by
  intro rest
  induction rest with
  | nil => intro i0; rfl
  | cons b bs ih =>
      intro i0
      rw [List.foldl_cons, List.foldl_cons, ih, interIdx_toFinset]

theorem foldl_interIdx_nodup :
    ∀ (rest : List (List String)) (i0 : List String),
    i0.Nodup → (rest.foldl interIdx i0).Nodup := by
  intro rest
  induction rest with
  | nil => intro i0 h; exact h
  | cons b bs ih => intro i0 _; exact ih _ (interIdx_nodup i0 b)

theorem foldl_inter_subset_init :
    ∀ (rest : List (List String)) (F0 : Finset String),
    rest.foldl (fun s l => s ∩ l.toFinset) F0 ⊆ F0 := by
  intro rest
  induction rest with
  | nil => intro F0; exact Finset.Subset.refl F0
  | cons b bs ih =>
      intro F0
      exact (ih (F0 ∩ b.toFinset)).trans Finset.inter_subset_left

theorem foldl_inter_subset_mem :
    ∀ (rest : List (List String)) (F0 : Finset String),
    ∀ l ∈ rest, rest.foldl (fun s l => s ∩ l.toFinset) F0 ⊆ l.toFinset := by
  intro rest
  induction rest with
  | nil => intro F0 l hl; cases hl
  | cons b bs ih =>
      intro F0 l hl
      rcases List.mem_cons.mp hl with rfl | hl
      · exact (foldl_inter_subset_init bs _).trans Finset.inter_subset_right
      · exact ih _ l hl

theorem foldl_inter_all_eq (F0 : Finset String) :
    ∀ (rest : List (List String)), (∀ l ∈ rest, l.toFinset = F0) →
      rest.foldl (fun s l => s ∩ l.toFinset) F0 = F0 := by
  intro rest
  induction rest with
  | nil => intro _; rfl
  | cons b bs ih =>
      intro h
      rw [List.foldl_cons, h b (by simp), Finset.inter_self]
      exact ih (fun l hl => h l (by simp [hl]))

theorem dedup_length_eq_card (l : List String) :
    l.dedup.length = l.toFinset.card := by
  have h : l.dedup.toFinset = l.toFinset :=
    List.toFinset.ext (fun x => List.mem_dedup)
  rw [← h]
  exact (List.toFinset_card_of_nodup (List.nodup_dedup l)).symm

theorem selectIndexCol_eq (lib : SeqLib) (key : String) :
    selectIndexCol lib key =
      match libColTable lib key with
      | some t => .ok (colIndex t)
      | none => .error "KeyError: no such table in library store" := by
  unfold selectIndexCol libColTable
  cases lib.store key with
  | none => rfl
  | some v => cases v <;> rfl

theorem mapM_selectIndexCol (key : String) :
    ∀ (libs : List SeqLib),
    (∀ lib ∈ libs, (libColTable lib key).isSome = true) →
    libs.mapM (fun lib => selectIndexCol lib key) =
      .ok (libs.map (fun lib => libIndexD lib key)) := by
  intro libs
  induction libs with
  | nil => intro _; rfl
  | cons l ls ih =>
      intro h
      have h0 := h l (by simp)
      have hsel : selectIndexCol l key = .ok (libIndexD l key) := by
        rw [selectIndexCol_eq]
        cases hc : libColTable l key with
        | none => rw [hc] at h0; exact Bool.noConfusion h0
        | some t =>
            unfold libIndexD libTableD
            rw [hc]
            rfl
      rw [List.mapM_cons, hsel, ih (fun lib hm => h lib (by simp [hm]))]
      rfl

/-- C5 counterexample: a selection whose two libraries disagree on the
element set (the per-(timepoint, Source) index verification raises when
invoked) completes a full `calculate` run without any error: the
verification is not performed by `calculate` (its call is commented out
in the source). -/
theorem calculate_skips_index_intersection_counterexample :
    (timepointIndicesIntersectForLabel cSel5 "x").isOk = false ∧
    (calculate cScoreF cPv cSel5).isOk = true := by
  constructor
  · decide
  · decide

/-- C5 (amended): the per-(timepoint, Source) index verification exists
as `timepoint_indices_intersect_for_label` and, when invoked on
distinct-free index sets, succeeds exactly when all per-library element
sets are identical (a discrepancy raises a fatal error) — but
`Selection.calculate` does not invoke it; the call is commented out and
only the placeholder-row check runs. -/
theorem timepoint_indices_check_iff (sel : Selection) (label : String)
    (hT : ∀ lib ∈ sel.allLibs,
      (libColTable lib (countsKey label)).isSome = true)
    (hNd : ∀ lib ∈ sel.allLibs,
      (libIndexD lib (countsKey label)).Nodup)
    (hne : sel.allLibs ≠ []) :
    timepointIndicesIntersectForLabel sel label = .ok () ↔
      ∀ lib1 ∈ sel.allLibs, ∀ lib2 ∈ sel.allLibs,
        (libIndexD lib1 (countsKey label)).toFinset =
        (libIndexD lib2 (countsKey label)).toFinset := by
  cases hal : sel.allLibs with
  | nil => exact absurd hal hne
  | cons lib0 libs =>
      have hmapM := mapM_selectIndexCol (countsKey label) sel.allLibs hT
      rw [hal] at hmapM
      unfold timepointIndicesIntersectForLabel
      rw [hal, hmapM]
      show (match (lib0 :: libs).map
          (fun lib => libIndexD lib (countsKey label)) with
        | [] => (Except.error
            "TypeError: reduce of empty iterable with no initial value" :
            Except String Unit)
        | i0 :: rest =>
            if (((lib0 :: libs).map
                (fun lib => libIndexD lib (countsKey label))).map
                (fun idx : List String => idx.dedup.length)).all
                (fun n : ℕ => (rest.foldl interIdx i0).length == n) then
              .ok ()
            else .error
              ("Timepoints contain different variants for label " ++ label))
        = .ok () ↔ _
      rw [List.map_cons]
      set i0 := libIndexD lib0 (countsKey label) with hi0
      set rest := libs.map (fun lib => libIndexD lib (countsKey label))
        with hrest
      have hF := foldl_interIdx_toFinset rest i0
      have hFnd : (rest.foldl interIdx i0).Nodup :=
        foldl_interIdx_nodup rest i0 (hNd lib0 (by rw [hal]; simp))
      have hFlen : (rest.foldl interIdx i0).length =
          (rest.foldl (fun s l => s ∩ l.toFinset) i0.toFinset).card := by
        rw [← hF]
        exact (List.toFinset_card_of_nodup hFnd).symm
      set F := rest.foldl (fun s l => s ∩ l.toFinset) i0.toFinset with hFdef
      have hsub : ∀ idx ∈ i0 :: rest, F ⊆ idx.toFinset := by
        intro idx hidx
        rcases List.mem_cons.mp hidx with rfl | hidx
        · exact foldl_inter_subset_init rest _
        · exact foldl_inter_subset_mem rest _ idx hidx
      have hcond : ((((i0 :: rest).map (fun idx => idx.dedup.length)).all
          (fun n => (rest.foldl interIdx i0).length == n)) = true) ↔
          ∀ idx ∈ i0 :: rest, F = idx.toFinset := by
        rw [List.all_eq_true]
        constructor
        · intro h idx hidx
          have h1 := h _ (List.mem_map.mpr ⟨idx, hidx, rfl⟩)
          rw [Nat.beq_eq_true_eq] at h1
          rw [hFlen, dedup_length_eq_card] at h1
          exact Finset.eq_of_subset_of_card_le (hsub idx hidx)
            (le_of_eq h1.symm)
        · intro h n hn
          rcases List.mem_map.mp hn with ⟨idx, hidx, rfl⟩
          rw [Nat.beq_eq_true_eq, hFlen, dedup_length_eq_card,
            h idx hidx]
      constructor
      · intro hok
        intro lib1 h1 lib2 h2
        have hidx1 : libIndexD lib1 (countsKey label) ∈ i0 :: rest := by
          rcases List.mem_cons.mp h1 with rfl | h1m
          · exact List.mem_cons_self _ _
          · exact List.mem_cons_of_mem _ (List.mem_map.mpr ⟨lib1, h1m, rfl⟩)
        have hidx2 : libIndexD lib2 (countsKey label) ∈ i0 :: rest := by
          rcases List.mem_cons.mp h2 with rfl | h2m
          · exact List.mem_cons_self _ _
          · exact List.mem_cons_of_mem _ (List.mem_map.mpr ⟨lib2, h2m, rfl⟩)
        by_cases hcondb : (((i0 :: rest).map (fun idx => idx.dedup.length)).all
            (fun n => (rest.foldl interIdx i0).length == n)) = true
        · have hall := hcond.mp hcondb
          rw [← hall _ hidx1, hall _ hidx2]
        · have hok2 : (if (((i0 :: rest).map
              (fun idx : List String => idx.dedup.length)).all
              (fun n : ℕ => (rest.foldl interIdx i0).length == n)) = true then
                (Except.ok () : Except String Unit)
              else .error
                ("Timepoints contain different variants for label " ++
                  label)) = .ok () := hok
          rw [if_neg hcondb] at hok2
          exact Except.noConfusion hok2
      · intro hall
        have heq : ∀ idx ∈ i0 :: rest, idx.toFinset = i0.toFinset := by
          intro idx hidx
          rcases List.mem_cons.mp hidx with rfl | hidx
          · rfl
          · rcases List.mem_map.mp hidx with ⟨lib, hlib, rfl⟩
            exact hall lib (List.mem_cons_of_mem _ hlib) lib0 (by simp)
        have hFeq : F = i0.toFinset := by
          rw [hFdef]
          exact foldl_inter_all_eq _ rest
            (fun l hl => heq l (by simp [hl]))
        have hFall : ∀ idx ∈ i0 :: rest, F = idx.toFinset := by
          intro idx hidx
          rw [hFeq, heq idx hidx]
        show (if (((i0 :: rest).map
            (fun idx : List String => idx.dedup.length)).all
            (fun n : ℕ => (rest.foldl interIdx i0).length == n)) = true then
              (Except.ok () : Except String Unit)
            else .error
              ("Timepoints contain different variants for label " ++
                label)) = .ok ()
        rw [if_pos (hcond.mpr hFall)]

theorem timepoint_indices_check_iff_witness :
    (timepointIndicesIntersectForLabel cSel5 "x").isOk = false ∧
    (timepointIndicesIntersectForLabel cSel5 "x" = .ok () ↔
      ∀ lib1 ∈ cSel5.allLibs, ∀ lib2 ∈ cSel5.allLibs,
        (libIndexD lib1 (countsKey "x")).toFinset =
        (libIndexD lib2 (countsKey "x")).toFinset) :=
  ⟨by decide,
    timepoint_indices_check_iff cSel5 "x" (by decide) (by decide)
      (List.cons_ne_nil _ _)⟩

/-! Claim C7. -/

theorem mem_fst_iff_find? {β : Type} {t : List (String × β)} {e : String} :
    e ∈ t.map Prod.fst ↔ ∃ c, t.find? (fun r => r.1 = e) = some c := by
  constructor
  · intro h
    rcases List.mem_map.mp h with ⟨r, hr, hre⟩
    have hs : (t.find? (fun s => s.1 = e)).isSome :=
      List.find?_isSome.mpr ⟨r, hr, by simp [hre]⟩
    exact Option.isSome_iff_exists.mp hs
  · intro ⟨c, hc⟩
    have h1 := List.find?_some hc
    have h2 := List.mem_of_find?_eq_some hc
    exact List.mem_map.mpr ⟨c, h2, by simpa using h1⟩

theorem bcVal_find? {m : List (String × Option String)} {e : String}
    {r : String × Option String}
    (h : m.find? (fun s => s.1 = e) = some r) : bcVal m e = r.2 := by
  unfold bcVal
  rw [h]
  rfl

theorem bcVal_eq_none {m : List (String × Option String)} {e : String}
    (h : e ∉ m.map Prod.fst) : bcVal m e = none := by
  unfold bcVal
  rw [List.find?_eq_none.mpr]
  · rfl
  · intro r hr
    simp only [decide_eq_true_eq]
    intro hre
    exact h (List.mem_map.mpr ⟨r, hr, hre⟩)

theorem bcVal_bcmMerge (a b : List (String × Option String)) (e : String) :
    bcVal (bcmMerge a b) e = (bcVal a e).or (bcVal b e) := by
  have hdef : bcVal (bcmMerge a b) e =
      (((bcmMerge a b).find? (fun r => r.1 = e)).map Prod.snd).join := rfl
  have hsplit : (bcmMerge a b).find? (fun r => r.1 = e) =
      ((a.map (fun r => (r.1, r.2.or (bcVal b r.1)))).find?
        (fun r => r.1 = e)).or
      (((b.filter (fun r => !(a.map Prod.fst).contains r.1)).map
        (fun r => (r.1, r.2))).find? (fun r => r.1 = e)) := by
    unfold bcmMerge
    exact List.find?_append
  rw [hdef, hsplit,
    find?_fst_map (fun r : String × Option String =>
      (r.1, r.2.or (bcVal b r.1))) (fun r => rfl) e a,
    find?_fst_map (fun r : String × Option String => (r.1, r.2))
      (fun r => rfl) e (b.filter (fun r => !(a.map Prod.fst).contains r.1))]
  cases ha : a.find? (fun r => r.1 = e) with
  | some r0 =>
      have h0 : r0.1 = e := by simpa using List.find?_some ha
      have hba : bcVal a e = r0.2 := bcVal_find? ha
      simp [Option.or, h0, hba]
  | none =>
      have hna : e ∉ a.map Prod.fst := by
        intro hmem
        rcases mem_fst_iff_find?.mp hmem with ⟨c, hc⟩
        rw [ha] at hc
        exact Option.noConfusion hc
      have hba : bcVal a e = none := bcVal_eq_none hna
      have hfil : (b.filter
          (fun r => !(a.map Prod.fst).contains r.1)).find?
          (fun r => r.1 = e) = b.find? (fun r => r.1 = e) := by
        apply find?_fst_filter
        intro r hr
        rw [hr]
        simpa using hna
      rw [hfil]
      cases hb : b.find? (fun r => r.1 = e) with
      | some rb =>
          have hbb : bcVal b e = rb.2 := bcVal_find? hb
          simp [Option.or, hba, hbb]
      | none =>
          have hnb : e ∉ b.map Prod.fst := by
            intro hmem
            rcases mem_fst_iff_find?.mp hmem with ⟨c, hc⟩
            rw [hb] at hc
            exact Option.noConfusion hc
          simp [Option.or, hba, bcVal_eq_none hnb]

theorem mem_bcmMerge {a b : List (String × Option String)} {e : String} :
    e ∈ (bcmMerge a b).map Prod.fst ↔
      e ∈ a.map Prod.fst ∨ e ∈ b.map Prod.fst := by
  unfold bcmMerge
  rw [List.map_append, List.mem_append]
  constructor
  · rintro (h | h)
    · left
      rcases List.mem_map.mp h with ⟨r, hr, rfl⟩
      rcases List.mem_map.mp hr with ⟨q, hq, rfl⟩
      exact List.mem_map.mpr ⟨q, hq, rfl⟩
    · right
      rcases List.mem_map.mp h with ⟨r, hr, rfl⟩
      rcases List.mem_map.mp hr with ⟨q, hq, rfl⟩
      exact List.mem_map.mpr ⟨q, (List.mem_filter.mp hq).1, rfl⟩
  · intro h
    by_cases hA : e ∈ a.map Prod.fst
    · left
      rcases List.mem_map.mp hA with ⟨q, hq, rfl⟩
      exact List.mem_map.mpr
        ⟨(q.1, q.2.or (bcVal b q.1)), List.mem_map.mpr ⟨q, hq, rfl⟩, rfl⟩
    · rcases h with h | h
      · exact absurd h hA
      · right
        rcases List.mem_map.mp h with ⟨q, hq, rfl⟩
        refine List.mem_map.mpr
          ⟨(q.1, q.2), List.mem_map.mpr ⟨q, ?_, rfl⟩, rfl⟩
        exact List.mem_filter.mpr ⟨hq, not_contains_of_not_mem hA⟩

theorem bcDet_of_nodup {m : List (String × Option String)}
    (h : (m.map Prod.fst).Nodup) : bcDet m := by
  induction m with
  | nil => intro r hr; cases hr
  | cons s t ih =>
      have hnd := h
      rw [List.map_cons, List.nodup_cons] at hnd
      intro r hr
      rcases List.mem_cons.mp hr with rfl | hr
      · show r.2 = bcVal (r :: t) r.1
        unfold bcVal
        simp [List.find?_cons]
      · have hne : s.1 ≠ r.1 := by
          intro hcontr
          exact hnd.1 (hcontr ▸ List.mem_map.mpr ⟨r, hr, rfl⟩)
        show r.2 = bcVal (s :: t) r.1
        unfold bcVal
        simp only [List.find?_cons, decide_eq_false hne]
        exact ih hnd.2 r hr

theorem bcDet_bcmMerge {a b : List (String × Option String)}
    (ha : bcDet a) (hb : bcDet b) : bcDet (bcmMerge a b) := by
  intro r hr
  rcases List.mem_append.mp hr with h | h
  · rcases List.mem_map.mp h with ⟨q, hq, rfl⟩
    rw [bcVal_bcmMerge]
    exact congrArg (fun c => c.or (bcVal b q.1)) (ha q hq)
  · rcases List.mem_map.mp h with ⟨q, hq, rfl⟩
    have hqf := List.mem_filter.mp hq
    have hqa : q.1 ∉ a.map Prod.fst := by
      intro hmem
      have := hqf.2
      rw [contains_iff.mpr hmem] at this
      exact Bool.noConfusion this
    rw [bcVal_bcmMerge, bcVal_eq_none hqa]
    show q.2 = Option.or none (bcVal b q.1)
    rw [← hb q hqf.1]
    cases q.2 <;> rfl

theorem getBcMap_eq (lib : SeqLib) (h : hasBcMap lib = true) :
    getBcMap lib = .ok (bcMapD lib) := by
  unfold getBcMap bcMapD
  unfold hasBcMap at h
  cases hs : lib.store "/raw/barcodemap" with
  | none => rw [hs] at h; exact Bool.noConfusion h
  | some v =>
      rw [hs] at h
      cases v
      case bcmap m => rfl
      all_goals exact Bool.noConfusion h

theorem firstTarget_append_one (xs : List SeqLib) (l : SeqLib) (b : String) :
    firstTarget (xs ++ [l]) b =
      (firstTarget xs b).or (bcVal (bcMapD l) b) := by
  induction xs with
  | nil =>
      show (bcVal (bcMapD l) b).or (firstTarget [] b) = _
      cases bcVal (bcMapD l) b <;> rfl
  | cons x xs ih =>
      show (bcVal (bcMapD x) b).or (firstTarget (xs ++ [l]) b) =
        ((bcVal (bcMapD x) b).or (firstTarget xs b)).or
          (bcVal (bcMapD l) b)
      rw [ih]
      cases bcVal (bcMapD x) b <;> cases firstTarget xs b <;>
        cases bcVal (bcMapD l) b <;> rfl

theorem bcmFoldM_eq :
    ∀ (ls : List SeqLib) (acc : List (String × Option String)),
    (∀ lib ∈ ls, hasBcMap lib = true) →
    ls.foldlM (fun acc lib => do
        let mb ← getBcMap lib
        pure (bcmMerge acc mb)) acc =
      .ok (ls.foldl (fun acc lib => bcmMerge acc (bcMapD lib)) acc) := by
  intro ls
  induction ls with
  | nil => intro acc _; rfl
  | cons l ls ih =>
      intro acc h
      rw [List.foldlM_cons, getBcMap_eq l (h l (by simp))]
      show ls.foldlM _ (bcmMerge acc (bcMapD l)) = _
      rw [List.foldl_cons]
      exact ih _ (fun lib hm => h lib (by simp [hm]))

theorem bcmFoldPure_inv :
    ∀ (ls : List SeqLib) (acc : List (String × Option String))
      (processed : List SeqLib),
    (∀ lib ∈ ls, ((bcMapD lib).map Prod.fst).Nodup) →
    (∀ e, e ∈ acc.map Prod.fst ↔
      ∃ lib ∈ processed, e ∈ (bcMapD lib).map Prod.fst) →
    (∀ e, bcVal acc e = firstTarget processed e) →
    bcDet acc →
    (∀ e, e ∈ (ls.foldl (fun acc lib => bcmMerge acc (bcMapD lib))
        acc).map Prod.fst ↔
      ∃ lib ∈ processed ++ ls, e ∈ (bcMapD lib).map Prod.fst) ∧
    (∀ e, bcVal (ls.foldl (fun acc lib => bcmMerge acc (bcMapD lib)) acc) e =
      firstTarget (processed ++ ls) e) ∧
    bcDet (ls.foldl (fun acc lib => bcmMerge acc (bcMapD lib)) acc) := by
  intro ls
  induction ls with
  | nil =>
      intro acc processed _ hmem hval hdet
      refine ⟨?_, ?_, hdet⟩
      · intro e
        simpa using hmem e
      · intro e
        simpa using hval e
  | cons l ls ih =>
      intro acc processed hnd hmem hval hdet
      rw [List.foldl_cons]
      have hdl : bcDet (bcMapD l) := bcDet_of_nodup (hnd l (by simp))
      have hmem2 : ∀ e, e ∈ (bcmMerge acc (bcMapD l)).map Prod.fst ↔
          ∃ lib ∈ processed ++ [l], e ∈ (bcMapD lib).map Prod.fst := by
        intro e
        rw [mem_bcmMerge, hmem e]
        constructor
        · rintro (⟨lib, hl, hm⟩ | h)
          · exact ⟨lib, by simp [hl], hm⟩
          · exact ⟨l, by simp, h⟩
        · rintro ⟨lib, hl, hm⟩
          rcases List.mem_append.mp hl with hl | hl
          · exact Or.inl ⟨lib, hl, hm⟩
          · rcases List.mem_singleton.mp hl with rfl
            exact Or.inr hm
      have hval2 : ∀ e, bcVal (bcmMerge acc (bcMapD l)) e =
          firstTarget (processed ++ [l]) e := by
        intro e
        rw [bcVal_bcmMerge, hval e, firstTarget_append_one]
      have hdet2 : bcDet (bcmMerge acc (bcMapD l)) :=
        bcDet_bcmMerge hdet hdl
      have hres := ih (bcmMerge acc (bcMapD l)) (processed ++ [l])
        (fun lib hm => hnd lib (by simp [hm])) hmem2 hval2 hdet2
      rw [List.append_assoc] at hres
      simpa using hres

theorem mem_insertSorted {le : α → α → Bool} {x y : α} {l : List α} :
    y ∈ insertSorted le x l ↔ y = x ∨ y ∈ l := by
  induction l with
  | nil => simp [insertSorted]
  | cons z zs ih =>
      unfold insertSorted
      by_cases h : le x z = true
      · simp [h]
      · rw [if_neg h]
        rw [List.mem_cons, ih]
        constructor
        · rintro (rfl | (rfl | hm))
          · exact Or.inr (by simp)
          · exact Or.inl rfl
          · exact Or.inr (by simp [hm])
        · rintro (rfl | hm)
          · exact Or.inr (Or.inl rfl)
          · rcases List.mem_cons.mp hm with rfl | hm
            · exact Or.inl rfl
            · exact Or.inr (Or.inr hm)

theorem mem_sortBy {le : α → α → Bool} {y : α} {l : List α} :
    y ∈ sortBy le l ↔ y ∈ l := by
  induction l with
  | nil => rfl
  | cons x xs ih =>
      unfold sortBy
      rw [mem_insertSorted, ih, List.mem_cons]

theorem pairwise_insertSorted (le : α → α → Bool)
    (htot : ∀ a b, (le a b || le b a) = true)
    (htr : ∀ a b c, le a b = true → le b c = true → le a c = true)
    (x : α) (l : List α) (h : l.Pairwise (fun a b => le a b = true)) :
    (insertSorted le x l).Pairwise (fun a b => le a b = true) := by
  induction l with
  | nil => simp [insertSorted]
  | cons y ys ih =>
      rw [List.pairwise_cons] at h
      unfold insertSorted
      by_cases hle : le x y = true
      · rw [if_pos hle]
        rw [List.pairwise_cons]
        constructor
        · intro z hz
          rcases List.mem_cons.mp hz with rfl | hz
          · exact hle
          · exact htr x y z hle (h.1 z hz)
        · exact List.pairwise_cons.mpr h
      · rw [if_neg hle]
        rw [List.pairwise_cons]
        constructor
        · intro z hz
          rcases mem_insertSorted.mp hz with hzx | hz
          · rw [hzx]
            have h2 := htot x y
            rw [Bool.eq_false_iff.mpr hle] at h2
            simpa using h2
          · exact h.1 z hz
        · exact ih h.2

theorem pairwise_sortBy (le : α → α → Bool)
    (htot : ∀ a b, (le a b || le b a) = true)
    (htr : ∀ a b c, le a b = true → le b c = true → le a c = true)
    (l : List α) :
    (sortBy le l).Pairwise (fun a b => le a b = true) := by
  induction l with
  | nil => exact List.Pairwise.nil
  | cons x xs ih => exact pairwise_insertSorted le htot htr x (sortBy le xs) ih

theorem charListLe_total : ∀ as bs : List Char,
    (charListLe as bs || charListLe bs as) = true := by
  intro as
  induction as with
  | nil => intro bs; cases bs <;> rfl
  | cons a as ih =>
      intro bs
      cases bs with
      | nil => rfl
      | cons b bs =>
          show (charListLe (a :: as) (b :: bs) ||
            charListLe (b :: bs) (a :: as)) = true
          unfold charListLe
          by_cases h1 : a.toNat < b.toNat
          · simp [h1]
          · by_cases h2 : b.toNat < a.toNat
            · simp [h1, h2]
            · simp [h1, h2]
              exact Bool.or_eq_true_iff.mp (ih bs)

theorem charListLe_trans : ∀ as bs cs : List Char,
    charListLe as bs = true → charListLe bs cs = true →
    charListLe as cs = true := by
  intro as
  induction as with
  | nil => intro bs cs _ _; cases cs <;> rfl
  | cons a as ih =>
      intro bs cs h1 h2
      cases bs with
      | nil => exact absurd h1 (by simp [charListLe])
      | cons b bs =>
          cases cs with
          | nil => exact absurd h2 (by simp [charListLe])
          | cons c cs =>
              unfold charListLe at h1 h2 ⊢
              split_ifs at h1 h2 ⊢ <;>
                first
                  | rfl
                  | omega
                  | exact ih bs cs h1 h2
                  | exact Bool.noConfusion h1
                  | exact Bool.noConfusion h2

theorem valueLe_total (a b : Option String) :
    (valueLe a b || valueLe b a) = true := by
  cases a <;> cases b <;> simp [valueLe]
  exact Bool.or_eq_true_iff.mp (charListLe_total _ _)

theorem valueLe_trans (a b c : Option String)
    (h1 : valueLe a b = true) (h2 : valueLe b c = true) :
    valueLe a c = true := by
  cases a <;> cases b <;> cases c <;> simp [valueLe, strLe] at h1 h2 ⊢
  exact charListLe_trans _ _ _ h1 h2

/-- C7: `combine_barcode_maps` writes, once, a merged map whose barcode
set is the union over all children, whose target for each barcode is
the first non-null target in child order (later conflicting duplicates
dropped), sorted by target identifier. -/
theorem combine_barcode_maps_spec (sel : Selection)
    (hf : sel.forceRecalculate = false)
    (habs : sel.store "/main/barcodemap" = none)
    (hM : ∀ lib ∈ sel.children, hasBcMap lib = true)
    (hNd : ∀ lib ∈ sel.children, ((bcMapD lib).map Prod.fst).Nodup)
    (hne : sel.children ≠ []) :
    ∃ M : List (String × Option String),
      combineBarcodeMaps sel =
        .ok (sel.store.put "/main/barcodemap" (.bcmap M)) ∧
      (∀ b, b ∈ M.map Prod.fst ↔
        ∃ lib ∈ sel.children, b ∈ (bcMapD lib).map Prod.fst) ∧
      (∀ r ∈ M, r.2 = firstTarget sel.children r.1) ∧
      M.Pairwise (fun r s : String × Option String =>
        valueLe r.2 s.2 = true) := by
  cases hch : sel.children with
  | nil => exact absurd hch hne
  | cons lib0 rest =>
      have hcheck : sel.checkStore "/main/barcodemap" = false := by
        unfold Selection.checkStore Store.hasKey
        rw [hf, habs]
        rfl
      have hM0 := hM lib0 (by rw [hch]; simp)
      have hMrest : ∀ lib ∈ rest, hasBcMap lib = true :=
        fun lib hm => hM lib (by rw [hch]; simp [hm])
      have hcomb : combineBarcodeMaps sel =
          .ok (sel.store.put "/main/barcodemap"
            (.bcmap (sortBy (fun r s : String × Option String => valueLe r.2 s.2)
              (rest.foldl (fun acc lib => bcmMerge acc (bcMapD lib))
                (bcMapD lib0))))) := by
        unfold combineBarcodeMaps
        rw [hcheck, hch]
        show (do
          let m0 ← getBcMap lib0
          let m ← rest.foldlM (fun acc lib => do
              let mb ← getBcMap lib
              pure (bcmMerge acc mb)) m0
          let msorted := sortBy (fun r s : String × Option String => valueLe r.2 s.2) m
          Except.ok (sel.store.put "/main/barcodemap" (.bcmap msorted))) = _
        rw [getBcMap_eq lib0 hM0]
        show (do
          let m ← rest.foldlM (fun acc lib => do
              let mb ← getBcMap lib
              pure (bcmMerge acc mb)) (bcMapD lib0)
          let msorted := sortBy (fun r s : String × Option String => valueLe r.2 s.2) m
          Except.ok (sel.store.put "/main/barcodemap" (.bcmap msorted))) = _
        rw [bcmFoldM_eq rest (bcMapD lib0) hMrest]
        rfl
      have hinv := bcmFoldPure_inv rest (bcMapD lib0) [lib0]
        (fun lib hm => hNd lib (by rw [hch]; simp [hm]))
        (by intro e; simp)
        (by
          intro e
          show bcVal (bcMapD lib0) e =
            (bcVal (bcMapD lib0) e).or (firstTarget [] e)
          cases bcVal (bcMapD lib0) e <;> rfl)
        (bcDet_of_nodup (hNd lib0 (by rw [hch]; simp)))
      refine ⟨_, hcomb, ?_, ?_, ?_⟩
      · intro b
        have hms : b ∈ (sortBy (fun r s : String × Option String => valueLe r.2 s.2)
            (rest.foldl (fun acc lib => bcmMerge acc (bcMapD lib))
              (bcMapD lib0))).map Prod.fst ↔
            b ∈ (rest.foldl (fun acc lib => bcmMerge acc (bcMapD lib))
              (bcMapD lib0)).map Prod.fst := by
          constructor
          · intro h
            rcases List.mem_map.mp h with ⟨r, hr, rfl⟩
            exact List.mem_map.mpr ⟨r, mem_sortBy.mp hr, rfl⟩
          · intro h
            rcases List.mem_map.mp h with ⟨r, hr, rfl⟩
            exact List.mem_map.mpr ⟨r, mem_sortBy.mpr hr, rfl⟩
        rw [hms, hinv.1 b]
        simp
      · intro r hr
        have hrm := mem_sortBy.mp hr
        have hdet := hinv.2.2
        rw [hdet r hrm, hinv.2.1 r.1]
        simp
      · exact pairwise_sortBy
          (fun r s : String × Option String => valueLe r.2 s.2)
          (fun a b => valueLe_total a.2 b.2)
          (fun a b c h1 h2 => valueLe_trans a.2 b.2 c.2 h1 h2) _

theorem combine_barcode_maps_spec_witness :
    runStore (combineBarcodeMaps cSel7) cSel7.store "/main/barcodemap" =
      some (.bcmap [("bc3", some "t0"), ("bc2", some "t1"),
        ("bc1", some "t2")]) ∧
    (∃ M : List (String × Option String),
      combineBarcodeMaps cSel7 =
        .ok (cSel7.store.put "/main/barcodemap" (.bcmap M)) ∧
      (∀ b, b ∈ M.map Prod.fst ↔
        ∃ lib ∈ cSel7.children, b ∈ (bcMapD lib).map Prod.fst) ∧
      (∀ r ∈ M, r.2 = firstTarget cSel7.children r.1) ∧
      M.Pairwise (fun r s : String × Option String =>
        valueLe r.2 s.2 = true)) :=
  ⟨by decide,
    combine_barcode_maps_spec cSel7 rfl rfl (by decide) (by decide)
      (List.cons_ne_nil _ _)⟩

/-! Claim C9: frame lemmas for the counts-method run. -/

theorem Store.remove_other (s : Store) (k q : String) (h : q ≠ k) :
    (s.remove k) q = s q := by
  simp [Store.remove, h]

theorem exbind_ok {α β : Type} {x : Except String α} {f : α → Except String β}
    {b : β} (h : x >>= f = Except.ok b) :
    ∃ a, x = Except.ok a ∧ f a = Except.ok b := by
  cases x with
  | error e => exact Except.noConfusion h
  | ok a => exact ⟨a, rfl, h⟩

theorem mergeCountsUnfiltered_frame (sel : Selection) (label : String)
    (s2 : Store) (h : mergeCountsUnfiltered sel label = .ok s2)
    (q : String) (hq : q ≠ unfilteredKey label) : s2 q = sel.store q := by
  by_cases hc : sel.checkStore (unfilteredKey label) = true
  · have hm : mergeCountsUnfiltered sel label = .ok sel.store := by
      unfold mergeCountsUnfiltered
      rw [if_pos hc]
    rw [hm] at h
    rw [← Except.ok.inj h]
  · cases hci : completeIndex sel (countsKey label) with
    | error e =>
        have hm : mergeCountsUnfiltered sel label = .error e := by
          unfold mergeCountsUnfiltered
          rw [if_neg hc, hci]
        rw [hm] at h
        exact Except.noConfusion h
    | ok cidx =>
        have hm : mergeCountsUnfiltered sel label =
            (if sel.chunksize = 0 then
              .error "ValueError: range arg 3 must not be zero"
            else .ok ((chunkList sel.chunksize cidx).foldl
              (fun s c => s.appendCounts (unfilteredKey label)
                (chunkFrame sel (countsKey label) c))
              (if sel.store.hasKey (unfilteredKey label) then
                sel.store.remove (unfilteredKey label) else sel.store))) := by
          unfold mergeCountsUnfiltered
          rw [if_neg hc, hci]
        rw [hm] at h
        by_cases hcs : sel.chunksize = 0
        · rw [if_pos hcs] at h
          exact Except.noConfusion h
        · rw [if_neg hcs] at h
          rw [← Except.ok.inj h, foldl_appendCounts_other _ _ _ hq]
          by_cases hk : sel.store.hasKey (unfilteredKey label) = true
          · rw [if_pos hk]
            exact Store.remove_other _ _ _ hq
          · rw [if_neg hk]

theorem filterCounts_frame (sel : Selection) (label : String) (s2 : Store)
    (h : filterCounts sel label = .ok s2) (q : String)
    (hq : q ≠ countsKey label) : s2 q = sel.store q := by
  have hclosed : filterCounts sel label =
      match sel.store (unfilteredKey label) with
      | some (.counts df) =>
          .ok (sel.store.put (countsKey label)
            (.counts (df.filter (fun r => r.2.all (fun c => c.isSome)))))
      | _ => .error "KeyError: No object named counts_unfiltered in the file" := by
    unfold filterCounts
    simp only [ite_self]
  rw [hclosed] at h
  cases hu : sel.store (unfilteredKey label) with
  | none =>
      rw [hu] at h
      exact Except.noConfusion h
  | some v =>
      rw [hu] at h
      cases v with
      | counts df =>
          rw [← Except.ok.inj h]
          exact Store.put_other _ _ _ _ hq
      | col t => exact Except.noConfusion h
      | bcmap m => exact Except.noConfusion h
      | scores t => exact Except.noConfusion h
      | outliers t => exact Except.noConfusion h

theorem combineBarcodeMaps_frame (sel : Selection) (s2 : Store)
    (h : combineBarcodeMaps sel = .ok s2) (q : String)
    (hq : q ≠ "/main/barcodemap") : s2 q = sel.store q := by
  by_cases hc : sel.checkStore "/main/barcodemap" = true
  · have hm : combineBarcodeMaps sel = .ok sel.store := by
      unfold combineBarcodeMaps
      rw [if_pos hc]
    rw [hm] at h
    rw [← Except.ok.inj h]
  · cases hch : sel.children with
    | nil =>
        have hm : combineBarcodeMaps sel =
            .error "AttributeError: NoneType has no attribute sort_values" := by
          unfold combineBarcodeMaps
          rw [if_neg hc, hch]
        rw [hm] at h
        exact Except.noConfusion h
    | cons l0 rest =>
        have hm : combineBarcodeMaps sel = (do
            let m0 ← getBcMap l0
            let m ← rest.foldlM (fun acc lib => do
                let mb ← getBcMap lib
                pure (bcmMerge acc mb)) m0
            Except.ok (sel.store.put "/main/barcodemap"
              (.bcmap (sortBy
                (fun r s : String × Option String => valueLe r.2 s.2) m)))) := by
          unfold combineBarcodeMaps
          rw [if_neg hc, hch]
        rw [hm] at h
        obtain ⟨m0, hg, h⟩ := exbind_ok h
        obtain ⟨mm, hf, h⟩ := exbind_ok h
        rw [← Except.ok.inj h]
        exact Store.put_other _ _ _ _ hq

theorem mergeFilter_fold_frame (sel : Selection) :
    ∀ (ls : List String) (s s1 : Store),
      ls.foldlM (fun s label => do
          let s2 ← mergeCountsUnfiltered { sel with store := s } label
          filterCounts { sel with store := s2 } label) s = Except.ok s1 →
      ∀ q : String, (∀ l ∈ ls, q ≠ unfilteredKey l ∧ q ≠ countsKey l) →
        s1 q = s q := by
  intro ls
  induction ls with
  | nil =>
      intro s s1 h q hq
      rw [← Except.ok.inj h]
  | cons l ls ih =>
      intro s s1 h q hq
      obtain ⟨sa, hstep, hrest⟩ := exbind_ok h
      obtain ⟨sb, hmg, hfl⟩ := exbind_ok hstep
      have e1 : s1 q = sa q :=
        ih sa s1 hrest q (fun l2 hl2 => hq l2 (List.mem_cons_of_mem _ hl2))
      have e2 : sa q = sb q :=
        filterCounts_frame { sel with store := sb } l sa hfl q
          (hq l (List.mem_cons_self _ _)).2
      have e3 : sb q = s q :=
        mergeCountsUnfiltered_frame { sel with store := s } l sb hmg q
          (hq l (List.mem_cons_self _ _)).1
      exact (e1.trans e2).trans e3

/-! Claim C9. -/

/-- C9: with scoring method counts, `calculate` stops after producing
the merged and filtered count tables (plus, for barcode designs, the
combined barcode map): no scores table is written for any label, and
every key other than the per-label unfiltered/filtered counts keys and
the barcode-map key is left exactly as it stood before the call. -/
theorem calculate_counts_no_scores
    (scoreTable : String → List (String × ScoreRow))
    (pv : String → String) (sel : Selection)
    (hm : sel.scoringMethod = "counts") :
    (∀ l2 : String,
      runStore (calculate scoreTable pv sel) sel.store (scoresKey l2) =
        sel.store (scoresKey l2)) ∧
    (∀ q : String,
      (∀ l ∈ sel.labels, q ≠ unfilteredKey l ∧ q ≠ countsKey l) →
      q ≠ "/main/barcodemap" →
      runStore (calculate scoreTable pv sel) sel.store q = sel.store q) := by
  have frame : ∀ q : String,
      (∀ l ∈ sel.labels, q ≠ unfilteredKey l ∧ q ≠ countsKey l) →
      q ≠ "/main/barcodemap" →
      runStore (calculate scoreTable pv sel) sel.store q = sel.store q := by
    intro q hql hqb
    cases hcal : calculate scoreTable pv sel with
    | error e => rfl
    | ok sf =>
        show sf q = sel.store q
        unfold calculate at hcal
        by_cases hemp : sel.labels.isEmpty = true
        · rw [if_pos hemp] at hcal
          exact Except.noConfusion hcal
        · rw [if_neg hemp] at hcal
          obtain ⟨s1, hfold, hcal⟩ := exbind_ok hcal
          rw [hm] at hcal
          simp only [] at hcal
          have hfr1 : s1 q = sel.store q :=
            mergeFilter_fold_frame sel sel.labels sel.store s1 hfold q hql
          have hcq : (("counts" : String) == "counts") = true := by decide
          have hb1 : ((("counts" : String) == "ratios" ||
              ("counts" : String) == "WLS" ||
              ("counts" : String) == "OLS") && sel.componentOutliers) = false := by
            rw [show ((("counts" : String) == "ratios" ||
              ("counts" : String) == "WLS" ||
              ("counts" : String) == "OLS")) = false by decide]
            exact Bool.false_and _
          by_cases hbc :
              (({ sel with store := s1, scoringMethod := "counts" } :
                  Selection).isBarcodeVariant ||
               ({ sel with store := s1, scoringMethod := "counts" } :
                  Selection).isBarcodeId) = true
          · rw [if_pos hbc] at hcal
            obtain ⟨s2, hcomb, hcal⟩ := exbind_ok hcal
            obtain ⟨u1, hens, hcal⟩ := exbind_ok hcal
            obtain ⟨u2, htpv, hcal⟩ := exbind_ok hcal
            rw [if_pos hcq] at hcal
            obtain ⟨s3, hid3, hcal⟩ := exbind_ok hcal
            rw [hb1] at hcal
            have hsf : s3 = sf := Except.ok.inj hcal
            have h32 : s3 = s2 := (Except.ok.inj hid3).symm
            have h21 : s2 q = s1 q :=
              combineBarcodeMaps_frame _ s2 hcomb q hqb
            rw [← hsf, h32, h21, hfr1]
          · rw [if_neg hbc] at hcal
            obtain ⟨s2, hid2, hcal⟩ := exbind_ok hcal
            obtain ⟨u1, hens, hcal⟩ := exbind_ok hcal
            obtain ⟨u2, htpv, hcal⟩ := exbind_ok hcal
            rw [if_pos hcq] at hcal
            obtain ⟨s3, hid3, hcal⟩ := exbind_ok hcal
            rw [hb1] at hcal
            have hsf : s3 = sf := Except.ok.inj hcal
            have h32 : s3 = s2 := (Except.ok.inj hid3).symm
            have h21 : s2 = s1 := (Except.ok.inj hid2).symm
            rw [← hsf, h32, h21, hfr1]
  refine ⟨?_, frame⟩
  intro l2
  exact frame (scoresKey l2)
    (fun l hl => ⟨scoresKey_ne_unfilteredKey l2 l, scoresKey_ne_countsKey l2 l⟩)
    (scoresKey_ne_barcodemap l2)

theorem calculate_counts_no_scores_witness :
    runStore (calculate cScoreF cPv cSel9) cSel9.store (countsKey "x") =
      some (.counts [("A", [some 1, some 2])]) ∧
    runStore (calculate cScoreF cPv cSel9) cSel9.store (scoresKey "x") =
      cSel9.store (scoresKey "x") ∧
    runStore (calculate cScoreF cPv cSel9) cSel9.store "/other/key" =
      cSel9.store "/other/key" :=
  ⟨by decide,
    (calculate_counts_no_scores cScoreF cPv cSel9 rfl).1 "x",
    (calculate_counts_no_scores cScoreF cPv cSel9 rfl).2 "/other/key"
      (by decide) (by decide)⟩

/-! Claim C10. -/

/-- C10: once `calc_outliers` passes its destination check, resolves the
parent label, builds the mapping and selects both scores tables, the
chunk-count list for progress logging multiplies a list by the true
quotient of two integers — a float under Python 3 — and the call
terminates with TypeError before any write; the store is untouched. -/
theorem calc_outliers_chunk_list_type_error (pv : String → String)
    (sel : Selection) (label l2 : String) (mc lc : ℕ)
    (t1 t2 : List (String × ScoreRow))
    (hf : sel.forceRecalculate = false)
    (habs : sel.store (outliersKey label) = none)
    (hp : outlierParentLabel sel label = .ok l2)
    (hmap : (label = "variants" ∧
        ∃ df : DF, sel.store (countsKey "variants") = some (.counts df)) ∨
      (label = "barcodes" ∧
        ∃ m, sel.store "/main/barcodemap" = some (.bcmap m)))
    (hs1 : sel.store (scoresKey label) = some (.scores t1))
    (hs2 : sel.store (scoresKey l2) = some (.scores t2))
    (ht2 : t2 ≠ []) :
    calcOutliers pv sel label mc lc =
      .error "TypeError: cannot multiply sequence by non-int of type float" := by
  have hcheck : sel.checkStore (outliersKey label) = false := by
    unfold Selection.checkStore Store.hasKey
    rw [hf, habs]
    rfl
  unfold calcOutliers
  rw [hcheck]
  rcases hmap with ⟨rfl, df, hdf⟩ | ⟨rfl, m, hmm⟩
  · have hsyn : synonymousVariants pv sel =
        .ok (df.foldl (fun m r => addToMapping m (pv r.1) r.1) []) := by
      unfold synonymousVariants
      rw [hdf]
    have hsc1 : selectScores sel (scoresKey "variants") = .ok t1 := by
      unfold selectScores
      rw [hs1]
    have hl2 : l2 = "synonymous" := by
      have := hp
      unfold outlierParentLabel at this
      simp at this
      exact this.symm
    subst hl2
    have hsc2 : selectScores sel (scoresKey "synonymous") = .ok t2 := by
      unfold selectScores
      rw [hs2]
    simp [hp, hsyn, hsc1, hsc2, bind, Except.bind, Except.map]
  · have hbm : barcodemapMapping sel =
        .ok (m.foldl (fun acc r => addToBcMapping acc r.2 r.1) []) := by
      unfold barcodemapMapping
      rw [hmm]
    have hsc1 : selectScores sel (scoresKey "barcodes") = .ok t1 := by
      unfold selectScores
      rw [hs1]
    have hsc2 : selectScores sel (scoresKey l2) = .ok t2 := by
      unfold selectScores
      rw [hs2]
    simp [hp, hbm, hsc1, hsc2, bind, Except.bind, Except.map]

theorem calc_outliers_chunk_list_type_error_witness :
    calcOutliers cPv cSel10 "barcodes" 4 20000 =
      .error "TypeError: cannot multiply sequence by non-int of type float" ∧
    cSel10.store (outliersKey "barcodes") = none :=
  ⟨calc_outliers_chunk_list_type_error cPv cSel10 "barcodes" "identifiers"
      4 20000 [("bc1", (some 1, some 1))] [("id1", (some 1, some 1))]
      rfl rfl rfl
      (Or.inr ⟨rfl, [("bc1", some "id1")], rfl⟩)
      rfl rfl (List.cons_ne_nil _ _),
    rfl⟩

/-! Claim C6. -/

/-- C6: evaluating `calc_outliers` on a selection in which one parent has
exactly three mapped children (below the minimum-component threshold of
four) shows the source never reaches the per-parent loop at all: the
call dies with TypeError at the progress-logging chunk-count list and
writes nothing, so the claimed per-parent z-values are never produced
for any input. -/
theorem calc_outliers_failing_input_eval :
    calcOutliers cPv6 cSel6 "variants" 4 20000 =
      .error "TypeError: cannot multiply sequence by non-int of type float" ∧
    runStore (calcOutliers cPv6 cSel6 "variants" 4 20000) cSel6.store
      (outliersKey "variants") = none := by
  constructor
  · rfl
  · rfl

end S2P
